import Mathlib

/-!
# ergoPool: shallow embedding of the proxy core

Embedded from `rpc/rpc.go` (upstream node handle and its health counters) and
`proxy/{proxy,blocks,miner,handlers}.go` (upstream selection, work-template
cache, share pipeline).  Network replies and storage answers are explicit
inputs; every outbound call and every publication is recorded in a trace.
-/

namespace ErgoPool

/-! ## rpc/rpc.go : node handle and health counters -/

/-- Two's-complement wrap into the range of Go's 64-bit `int`. -/
def wrapInt64 (x : Int) : Int :=
  (x + 9223372036854775808) % 18446744073709551616 - 9223372036854775808

/-- The fields of `RPCClient` that the core reads or writes (the HTTP client is
represented by the replies handed to each call). -/
structure RPCClient where
  Url : String
  Name : String
  sick : Bool
  sickRate : Int
  successRate : Int
deriving DecidableEq, Repr

/-- Source `NewRPCClient`: zero-valued health state. -/
def NewRPCClient (name url : String) : RPCClient :=
  { Url := url, Name := name, sick := false, sickRate := 0, successRate := 0 }

/-- Source `RPCClient.Sick`. -/
def RPCClient.Sick (r : RPCClient) : Bool := r.sick

/-- Source `RPCClient.markSick`: `sickRate++; successRate = 0; if sickRate >= 5 then sick = true`. -/
def RPCClient.markSick (r : RPCClient) : RPCClient :=
  let sickRate := wrapInt64 (r.sickRate + 1)
  { r with
    sickRate := sickRate
    successRate := 0
    sick := if sickRate ≥ 5 then true else r.sick }

/-- Source `RPCClient.markAlive`: `successRate++; if successRate >= 5 then` clear the flag and
both counters. -/
def RPCClient.markAlive (r : RPCClient) : RPCClient :=
  let successRate := wrapInt64 (r.successRate + 1)
  if successRate ≥ 5 then
    { r with sick := false, sickRate := 0, successRate := 0 }
  else
    { r with successRate := successRate }

/-- One outcome report made to a node handle. -/
inductive Outcome where
  | failure
  | success
deriving DecidableEq, Repr

/-- A failure is reported with `markSick`, a success with `markAlive`. -/
def RPCClient.report (r : RPCClient) : Outcome → RPCClient
  | .failure => r.markSick
  | .success => r.markAlive

/-- A finite sequence of outcome reports, oldest first. -/
def RPCClient.reports (r : RPCClient) (os : List Outcome) : RPCClient :=
  os.foldl RPCClient.report r

/-- Iterating a state change `n` times. -/
def iter {α : Type} (f : α → α) : Nat → α → α
  | 0, a => a
  | n + 1, a => iter f n (f a)

/-- Number of successes at the end of a report sequence. -/
def trailingSuccesses (l : List Outcome) : Nat :=
  (l.reverse.takeWhile (fun o => o == Outcome.success)).length

/-- The sequence holds no five successes in a row. -/
def NoFiveSuccesses (l : List Outcome) : Prop :=
  ¬ ∃ x y, l = x ++ List.replicate 5 Outcome.success ++ y


/-! ## replies of the node -/

/-- Source `CandidateResp`; `Target` is a `*big.Int`, `none` standing for the nil pointer
left by a reply without `b`. -/
structure CandidateResp where
  Msg : String
  Target : Option Int
  PK : String
deriving DecidableEq, Repr

/-- Source `SolutionReq`; `Hash` (a `*big.Float`) is carried as its numeral, the core
never inspects it. -/
structure SolutionReq where
  PK : String
  W : String
  N : String
  Hash : String
deriving DecidableEq, Repr

/-- What `GET /mining/candidate` yields inside `GetWork`. -/
inductive WorkReply where
  /-- the request or the decoding failed: `GetWork` returns `(nil, err)` -/
  | error
  /-- the body decoded to a nil `*CandidateResp` without error -/
  | null
  /-- a decoded candidate -/
  | candidate (c : CandidateResp)
deriving DecidableEq, Repr

/-- What `GET /info` yields inside `doGet`.  The two fields of `object` are the
results of `uint64(info["headersHeight"].(float64))` and
`uint64(info["difficulty"].(float64))`, `none` when the type assertion fails. -/
inductive InfoReply where
  | error
  | object (headersHeight : Option Nat) (difficulty : Option Nat)
deriving DecidableEq, Repr

/-- What `POST /mining/solution` yields inside `doPost`. -/
inductive PostReply where
  /-- the call `client.Do` failed -/
  | error
  /-- a response with this status code and `detail` message -/
  | status (code : Nat) (detail : String)
deriving DecidableEq, Repr

/-- Source `RPCClient.GetWork`: the handle after the call, the returned pointer and
whether `err != nil`. -/
def RPCClient.GetWork (r : RPCClient) : WorkReply → RPCClient × Option CandidateResp × Bool
  | .error => (r.markSick, none, true)
  | .null => (r, none, false)
  | .candidate c => (r, some c, false)

/-- Source `RPCClient.doGet` as used by `GetInfo`: the handle after the call and the
reply map (`InfoReply.error` standing for the nil map). -/
def RPCClient.GetInfo (r : RPCClient) : InfoReply → RPCClient × InfoReply
  | .error => (r.markSick, .error)
  | .object h d => (r, .object h d)

/-- Source `RPCClient.doPost`: the handle after the call and whether `err != nil`. -/
def RPCClient.doPost (r : RPCClient) : PostReply → RPCClient × Bool
  | .error => (r.markSick, true)
  | .status code _ => (r, code != 200)

/-- Source `RPCClient.SubmitSolution`: the handle after the call, the boolean result and
whether `err != nil`. -/
def RPCClient.SubmitSolution (r : RPCClient) (p : PostReply) : RPCClient × Bool × Bool :=
  let post := r.doPost p
  if post.2 then (post.1, false, true) else (post.1, true, false)

/-- Source `RPCClient.Check`: the handle after the probe and the probe result. -/
def RPCClient.Check (r : RPCClient) (w : WorkReply) : RPCClient × Bool :=
  let got := r.GetWork w
  if got.2.2 then (got.1, false)
  else
    let r2 := got.1.markAlive
    (r2, !r2.Sick)

/-! ## proxy/blocks.go, proxy/proxy.go : data -/

/-- Source `maxBacklog`. -/
def maxBacklog : Nat := 3

/-- Source `heightDiffPair`; `diff` is a `*big.Int`. -/
structure heightDiffPair where
  diff : Option Int
  height : Nat
deriving DecidableEq, Repr

/-- Source `rpc.GetBlockReplyPart`, each field holding the number whose hexadecimal
rendering the source stores. -/
structure GetBlockReplyPart where
  Number : Nat
  Target : Int
deriving DecidableEq, Repr

/-- Source `BlockTemplate`.  The Go map `headers` is a list of pairs with one pair per
key; the never-assigned `nonces` map is left out. -/
structure BlockTemplate where
  Header : String
  Seed : String
  Target : String
  Difficulty : Nat
  Height : Nat
  GetPendingBlockCache : GetBlockReplyPart
  headers : List (String × heightDiffPair)
deriving DecidableEq, Repr

/-- Map assignment `m[k] = v`. -/
def mapSet (m : List (String × heightDiffPair)) (k : String) (v : heightDiffPair) :
    List (String × heightDiffPair) :=
  (k, v) :: m.filter (fun p => p.1 != k)

/-- Map lookup `v, ok := m[k]`. -/
def mapGet (m : List (String × heightDiffPair)) (k : String) : Option heightDiffPair :=
  (m.find? (fun p => p.1 == k)).map (fun p => p.2)

/-- The state of `ProxyServer` the core uses: the configuration values read
(`config.Proxy.Difficulty`, `HealthCheck`, `MaxFails`), the published template
(`atomic.Value`, `none` before the first `Store`), the active index, the node
handles, and the counters. -/
structure ProxyServer where
  Difficulty : Int
  HealthCheck : Bool
  MaxFails : Int
  blockTemplate : Option BlockTemplate
  upstream : Int
  upstreams : List RPCClient
  hashrateExpiration : Int
  failsCount : Int
deriving DecidableEq, Repr

/-- Calls leaving the core and writes to its shared cells, in program order. -/
inductive Effect where
  /-- entry into `fetchBlockTemplate` -/
  | fetchBlockTemplate
  /-- call of `GetInfo` on the active node -/
  | getInfo
  /-- call of `GetWork` on the active node -/
  | getWork
  /-- call of `Check` (a `GetWork`) on the node at this list position -/
  | probe (i : Nat)
  /-- call of `SubmitSolution` on the active node -/
  | submitSolution (params : SolutionReq)
  /-- publication `s.blockTemplate.Store` -/
  | store (t : BlockTemplate)
  /-- write `atomic.StoreInt32(&s.upstream, candidate)` -/
  | storeUpstream (candidate : Int)
  /-- call of `backend.WriteBlock` -/
  | writeBlock (login id : String) (params : SolutionReq) (shareDiff diff : Int)
      (height : Nat) (expiration : Int) (header : String)
  /-- call of `backend.WriteShare` -/
  | writeShare (login id : String) (params : SolutionReq) (shareDiff : Int)
      (height : Nat) (expiration : Int)
  /-- call of `policy.ApplyMalformedPolicy` -/
  | applyMalformedPolicy (ip : String)
  /-- call of `policy.ApplySharePolicy` -/
  | applySharePolicy (ip : String) (validShare : Bool)
deriving DecidableEq, Repr

/-- Outcome of running a procedure of the server: the state and trace at its end,
and its return value, `none` when it ended in a run-time panic (nil dereference,
index or slice bound). -/
structure Run (α : Type) where
  server : ProxyServer
  trace : List Effect
  result : Option α
deriving DecidableEq, Repr

/-- Wrap into `uint64`. -/
def wrapUint64 (x : Int) : Nat := (x % 18446744073709551616).toNat

/-- Wrap into `int32`. -/
def wrapInt32 (x : Int) : Int := (x + 2147483648) % 4294967296 - 2147483648

/-- Source `(*big.Int).Uint64`: the low 64 bits of the absolute value. -/
def bigUint64 (x : Int) : Nat := x.natAbs % 18446744073709551616

/-- Source `(*big.Int).Int64`: the low 64 bits of the absolute value as an `int64`,
negated for a negative number. -/
def bigInt64 (x : Int) : Int :=
  let v := wrapInt64 (x.natAbs % 18446744073709551616 : Nat)
  if x < 0 then wrapInt64 (-v) else v

/-- Source `(*big.Int).String`, which renders the nil pointer as `<nil>`. -/
def bigString : Option Int → String
  | none => "<nil>"
  | some x => toString x

/-- Source `ProxyServer.rpc`: `s.upstreams[i]`, `none` when the index is out of range. -/
def ProxyServer.rpc (s : ProxyServer) : Option RPCClient :=
  if 0 ≤ s.upstream then s.upstreams.get? s.upstream.toNat else none

/-- Write through the pointer returned by `rpc()`. -/
def ProxyServer.setRpc (s : ProxyServer) (r : RPCClient) : ProxyServer :=
  { s with upstreams := s.upstreams.set s.upstream.toNat r }

/-- Source `ProxyServer.currentBlockTemplate`. -/
def ProxyServer.currentBlockTemplate (s : ProxyServer) : Option BlockTemplate :=
  s.blockTemplate

/-! ## proxy/blocks.go : the template cache -/

/-- The node replies consumed by one `fetchBlockTemplate`: `GetInfo` and `GetWork`
inside `fetchPendingBlock`, then `GetWork` in `fetchBlockTemplate` itself. -/
structure RefreshEnv where
  info : InfoReply
  pendingWork : WorkReply
  work : WorkReply
deriving DecidableEq, Repr

/-- Source `blockNumber, ok := info["headersHeight"].(float64)` followed by `uint64(blockNumber)`. -/
def InfoReply.headersHeight : InfoReply → Nat
  | .object (some h) _ => h % 18446744073709551616
  | _ => 0

/-- Source `diff, ok := info["difficulty"].(float64)` followed by `uint64(diff)`. -/
def InfoReply.difficulty : InfoReply → Nat
  | .object _ (some d) => d % 18446744073709551616
  | _ => 0

/-- Source `ProxyServer.fetchPendingBlock`.  The error of `GetWork` is dropped and `work`
dereferenced: a failed or null work reply, or one without `b`, panics. -/
def ProxyServer.fetchPendingBlock (s : ProxyServer) (info : InfoReply) (work : WorkReply) :
    Run (GetBlockReplyPart × Nat × Nat) :=
  match s.rpc with
  | none => { server := s, trace := [], result := none }
  | some srpc =>
    let gotInfo := srpc.GetInfo info
    let gotWork := gotInfo.1.GetWork work
    let s2 := s.setRpc gotWork.1
    let blockNumber := gotInfo.2.headersHeight
    let diff := gotInfo.2.difficulty
    match gotWork.2.1 with
    | none => { server := s2, trace := [Effect.getInfo, Effect.getWork], result := none }
    | some w =>
      match w.Target with
      | none => { server := s2, trace := [Effect.getInfo, Effect.getWork], result := none }
      | some target =>
        { server := s2, trace := [Effect.getInfo, Effect.getWork],
          result := some ({ Number := blockNumber, Target := bigUint64 target }, blockNumber, diff) }

/-- Lines 85-91 of `fetchBlockTemplate`: copy forward the entries of the previous
backlog with `v.height > height-maxBacklog`, the subtraction in `uint64`. -/
def copyBacklog (acc : List (String × heightDiffPair)) (old : List (String × heightDiffPair))
    (height : Nat) : List (String × heightDiffPair) :=
  old.foldl
    (fun m p => if p.2.height > wrapUint64 ((height : Int) - (maxBacklog : Int))
      then mapSet m p.1 p.2 else m)
    acc

/-- Lines 69-91 of `fetchBlockTemplate`: the template built from the previous one,
the node state and the work reply. -/
def newTemplate (shareDifficulty : Int) (t : Option BlockTemplate) (pendingReply : GetBlockReplyPart)
    (height diff : Nat) (reply : CandidateResp) : BlockTemplate :=
  let headers := mapSet [] reply.Msg { diff := reply.Target, height := height }
  { Header := reply.Msg
    Seed := reply.PK
    Target := bigString reply.Target
    Height := height
    Difficulty := diff
    GetPendingBlockCache := { pendingReply with Target := shareDifficulty }
    headers := match t with
      | none => headers
      | some t => copyBacklog headers t.headers height }

/-- Source `ProxyServer.fetchBlockTemplate`. -/
def ProxyServer.fetchBlockTemplate (s : ProxyServer) (env : RefreshEnv) : Run Unit :=
  match s.rpc with
  | none => { server := s, trace := [Effect.fetchBlockTemplate], result := none }
  | some _ =>
    let t := s.currentBlockTemplate
    let p := s.fetchPendingBlock env.info env.pendingWork
    match p.result with
    | none => { server := p.server, trace := Effect.fetchBlockTemplate :: p.trace, result := none }
    | some pending =>
      match p.server.rpc with
      | none => { server := p.server, trace := Effect.fetchBlockTemplate :: p.trace, result := none }
      | some srpc =>
        let got := srpc.GetWork env.work
        let s1 := p.server.setRpc got.1
        let tr := Effect.fetchBlockTemplate :: (p.trace ++ [Effect.getWork])
        if got.2.2 then { server := s1, trace := tr, result := some () }
        else
          match got.2.1 with
          | none => { server := s1, trace := tr, result := none }
          | some reply =>
            if (match t with | some t => t.Header == reply.Msg | none => false) then
              { server := s1, trace := tr, result := some () }
            else
              let nt := newTemplate s.Difficulty t pending.1 pending.2.1 pending.2.2 reply
              { server := { s1 with blockTemplate := some nt }
                trace := tr ++ [Effect.store nt]
                result := if reply.Msg.utf8ByteSize < 10 then none else some () }

/-- A sequence of refreshes, one per element of `envs`; the run goes on after a
refresh that panicked (as it does when the panic is recovered by the HTTP server)
and reports `none` if any did. -/
def ProxyServer.refreshes (s : ProxyServer) : List RefreshEnv → Run Unit
  | [] => { server := s, trace := [], result := some () }
  | env :: envs =>
    let r1 := s.fetchBlockTemplate env
    let r2 := ProxyServer.refreshes r1.server envs
    { server := r2.server, trace := r1.trace ++ r2.trace,
      result := match r1.result with
        | none => none
        | some _ => r2.result }

/-! ## proxy/proxy.go : upstream selection -/

/-- The loop of `checkUpstreams` from list position `i` on: the handles after their
probes, the probes made, and the final `candidate` and `backup`. -/
def checkLoop (works : Nat → WorkReply) :
    Nat → List RPCClient → Int → Bool → List RPCClient × List Effect × Int × Bool
  | _, [], candidate, backup => ([], [], candidate, backup)
  | i, v :: vs, candidate, backup =>
    let checked := v.Check (works i)
    let next : Int × Bool :=
      if checked.2 && !backup then (wrapInt32 i, true) else (candidate, backup)
    let rest := checkLoop works (i + 1) vs next.1 next.2
    (checked.1 :: rest.1, Effect.probe i :: rest.2.1, rest.2.2)

/-- Source `ProxyServer.checkUpstreams`; `works i` is the reply the node at position `i`
gives to its probe. -/
def ProxyServer.checkUpstreams (s : ProxyServer) (works : Nat → WorkReply) : Run Unit :=
  let loop := checkLoop works 0 s.upstreams 0 false
  let candidate := loop.2.2.1
  let s1 := { s with upstreams := loop.1 }
  if s.upstream != candidate then
    if 0 ≤ candidate ∧ candidate.toNat < loop.1.length then
      { server := { s1 with upstream := candidate }
        trace := loop.2.1 ++ [Effect.storeUpstream candidate], result := some () }
    else { server := s1, trace := loop.2.1, result := none }
  else { server := s1, trace := loop.2.1, result := some () }

/-- The results of the probes of one `checkUpstreams` cycle, in list order. -/
def probeResults (works : Nat → WorkReply) : Nat → List RPCClient → List Bool
  | _, [] => []
  | i, v :: vs => (v.Check (works i)).2 :: probeResults works (i + 1) vs

/-! ## proxy/miner.go : the share pipeline -/

/-- The replies consumed by one `processShare`: the node's answer to the
submission, the replies to the refresh triggered on acceptance, and the
`(bool, err != nil)` pairs returned by `WriteBlock` and `WriteShare`. -/
structure ShareEnv where
  post : PostReply
  refresh : RefreshEnv
  writeBlock : Bool × Bool
  writeShare : Bool × Bool
deriving DecidableEq, Repr

/-- Source `ProxyServer.processShare`; `t` is the `*BlockTemplate` argument, `none` the nil
pointer; the submitter address `_ip` only reaches the log. -/
def ProxyServer.processShare (s : ProxyServer) (login id _ip : String) (t : Option BlockTemplate)
    (params : SolutionReq) (env : ShareEnv) : Run (Bool × Bool) :=
  match t with
  | none => { server := s, trace := [], result := none }
  | some t =>
    let hashNoNonce := t.Header
    let shareDiff := s.Difficulty
    match mapGet t.headers hashNoNonce with
    | none => { server := s, trace := [], result := some (false, false) }
    | some h =>
      match s.rpc with
      | none => { server := s, trace := [], result := none }
      | some srpc =>
        let sub := srpc.SubmitSolution env.post
        let s1 := s.setRpc sub.1
        let tr1 := [Effect.submitSolution params]
        let share := Effect.writeShare login id params shareDiff h.height s.hashrateExpiration
        if sub.2.2 then
          { server := s1, trace := tr1 ++ [share], result := some (false, true) }
        else if !sub.2.1 then
          { server := s1, trace := tr1 ++ [share], result := some (false, true) }
        else
          let f := s1.fetchBlockTemplate env.refresh
          match f.result with
          | none => { server := f.server, trace := tr1 ++ f.trace, result := none }
          | some _ =>
            match h.diff with
            | none => { server := f.server, trace := tr1 ++ f.trace, result := none }
            | some d =>
              let block := Effect.writeBlock login id params shareDiff (bigInt64 d) h.height
                s.hashrateExpiration t.Header
              { server := f.server, trace := tr1 ++ f.trace ++ [block, share],
                result := some (false, true) }

/-! ## proxy/handlers.go : the gateway-facing operations -/

/-- Source `ErrorReply`, with the two fields the handlers fill. -/
structure ErrorReply where
  Code : Int
  Message : String
deriving DecidableEq, Repr

/-- The field of `Session` the handlers read. -/
structure Session where
  ip : String
deriving DecidableEq, Repr

/-- Characters of the class `[0-9a-zA-Z-_]`. -/
def isWorkerChar (c : Char) : Bool :=
  c.isAlphanum || c == '-' || c == '_'

/-- Source `workerPattern.MatchString`, the pattern being `^[0-9a-zA-Z-_]{1,4}$`. -/
def workerPatternMatch (id : String) : Bool :=
  decide (1 ≤ id.length) && decide (id.length ≤ 4) && id.data.all isWorkerChar

/-- Source `ProxyServer.isSick`. -/
def ProxyServer.isSick (s : ProxyServer) : Bool :=
  s.HealthCheck && decide (s.failsCount ≥ s.MaxFails)

/-- Source `ProxyServer.handleGetWorkRPC`: the returned map (as its key-value pairs)
and error, `none` when the call panics (`big.Int.Div` by zero).  Both operands of the
division are non-negative, so it is the division of natural numbers. -/
def ProxyServer.handleGetWorkRPC (s : ProxyServer) (_cs : Session) :
    Option (Option (List (String × String)) × Option ErrorReply) :=
  match s.currentBlockTemplate with
  | none => some (none, some { Code := 0, Message := "Work not ready" })
  | some t =>
    if t.Header.utf8ByteSize == 0 || s.isSick then
      some (none, some { Code := 0, Message := "Work not ready" })
    else
      let twoExp256 : Nat := 2 ^ 256
      let maxUint256 : Nat := twoExp256 - 1
      let confDiff : Nat := wrapUint64 s.Difficulty
      if confDiff = 0 then none
      else
        let target : Nat := maxUint256 / confDiff
        some (some [("msg", t.Header), ("b", toString target), ("pk", t.Seed)], none)

/-- The replies consumed by one `handleSubmitRPC`: those of `processShare` and the
answer of `policy.ApplySharePolicy`. -/
structure SubmitEnv where
  share : ShareEnv
  sharePolicy : Bool
deriving DecidableEq, Repr

/-- The worker id handed on by `handleSubmitRPC`. -/
def workerId (id : String) : String :=
  if workerPatternMatch id then id else "unknown"

/-- Source `ProxyServer.handleSubmitRPC`; `params` is a pointer, `none` being nil. -/
def ProxyServer.handleSubmitRPC (s : ProxyServer) (cs : Session) (login id : String)
    (params : Option SolutionReq) (env : SubmitEnv) : Run (Bool × Option ErrorReply) :=
  match params with
  | none =>
    { server := s, trace := [Effect.applyMalformedPolicy cs.ip],
      result := some (false, some { Code := -1, Message := "Invalid params" }) }
  | some p =>
    let t := s.currentBlockTemplate
    let run := s.processShare login (workerId id) cs.ip t p env.share
    match run.result with
    | none => { server := run.server, trace := run.trace, result := none }
    | some res =>
      let exist := res.1
      let validShare := res.2
      let ok := env.sharePolicy
      let tr := run.trace ++ [Effect.applySharePolicy cs.ip (!exist && validShare)]
      if exist then
        { server := run.server, trace := tr,
          result := some (false, some { Code := 22, Message := "Duplicate share" }) }
      else if !validShare then
        if !ok then
          { server := run.server, trace := tr,
            result := some (false, some { Code := 23, Message := "Invalid share" }) }
        else { server := run.server, trace := tr, result := some (false, none) }
      else if !ok then
        { server := run.server, trace := tr,
          result := some (true, some { Code := -1, Message := "High rate of invalid shares" }) }
      else { server := run.server, trace := tr, result := some (true, none) }

/-! ## concrete configurations used in the examples -/

/-- Node handles as `NewRPCClient` creates them. -/
def nodeA : RPCClient := NewRPCClient "A" "http://a.example:9052"

/-- Second configured upstream. -/
def nodeB : RPCClient := NewRPCClient "B" "http://b.example:9052"

/-- Third configured upstream. -/
def nodeC : RPCClient := NewRPCClient "C" "http://c.example:9052"

/-- A proxy right after construction of its fields: three upstreams, the first
active, nothing published yet, share difficulty 1000. -/
def server0 : ProxyServer :=
  { Difficulty := 1000
    HealthCheck := true
    MaxFails := 100
    blockTemplate := none
    upstream := 0
    upstreams := [nodeA, nodeB, nodeC]
    hashrateExpiration := 10800000000000
    failsCount := 0 }

/-- A header key of `i + 10` letters; keys of different `i` differ. -/
def keyAt (i : Nat) : String := String.mk (List.replicate (i + 10) 'h')

/-- Node replies announcing header `keyAt i` at chain height 100. -/
def sameHeightEnv (i : Nat) : RefreshEnv :=
  { info := InfoReply.object (some 100) (some 1)
    pendingWork := WorkReply.candidate { Msg := keyAt i, Target := some 7, PK := "pk" }
    work := WorkReply.candidate { Msg := keyAt i, Target := some 7, PK := "pk" } }

/-- The replies `sameHeightEnv i, ..., sameHeightEnv (i + n - 1)`. -/
def sameHeightEnvs : Nat → Nat → List RefreshEnv
  | _, 0 => []
  | i, n + 1 => sameHeightEnv i :: sameHeightEnvs (i + 1) n

/-- Trace entries that are `WriteShare` calls. -/
def Effect.isWriteShare : Effect → Bool
  | .writeShare .. => true
  | _ => false

/-- Trace entries that are `WriteBlock` calls. -/
def Effect.isWriteBlock : Effect → Bool
  | .writeBlock .. => true
  | _ => false

/-- Header key `H` of the accepted-submission scenario. -/
def headerH : String := "header-H-00000001"

/-- A later header key. -/
def headerH2 : String := "header-H-00000002"

/-- The node announces `H` at chain height 500 with network difficulty 7777; the
target `b` of its candidate is 12345. -/
def envH500 : RefreshEnv :=
  { info := InfoReply.object (some 500) (some 7777)
    pendingWork := WorkReply.candidate { Msg := headerH, Target := some 12345, PK := "pk-1" }
    work := WorkReply.candidate { Msg := headerH, Target := some 12345, PK := "pk-1" } }

/-- The proxy after its first refresh: snapshot `H`, height 500, difficulty 7777. -/
def server500 : ProxyServer := (server0.fetchBlockTemplate envH500).server

/-- A submitted solution. -/
def solution : SolutionReq := { PK := "pk-1", W := "w-1", N := "n-1", Hash := "0.5" }

/-- The node announces `H2` at chain height 501. -/
def envH501 : RefreshEnv :=
  { info := InfoReply.object (some 501) (some 7800)
    pendingWork := WorkReply.candidate { Msg := headerH2, Target := some 12000, PK := "pk-1" }
    work := WorkReply.candidate { Msg := headerH2, Target := some 12000, PK := "pk-1" } }

/-- The node accepts the solution and answers the refresh that follows. -/
def envAccepted : ShareEnv :=
  { post := PostReply.status 200 ""
    refresh := envH501
    writeBlock := (false, false)
    writeShare := (false, false) }

/-- The node accepts the solution; the candidate fetch of the refresh that follows
fails in transport. -/
def envAcceptedFetchFails : ShareEnv :=
  { post := PostReply.status 200 ""
    refresh := { info := InfoReply.object (some 501) (some 7800)
                 pendingWork := WorkReply.error
                 work := WorkReply.error }
    writeBlock := (false, false)
    writeShare := (false, false) }

/-- The info fetch fails in transport, the candidate fetches succeed with `H2`. -/
def envInfoFails : RefreshEnv :=
  { info := InfoReply.error
    pendingWork := WorkReply.candidate { Msg := headerH2, Target := some 12000, PK := "pk-1" }
    work := WorkReply.candidate { Msg := headerH2, Target := some 12000, PK := "pk-1" } }

/-- The candidate fetch inside `fetchPendingBlock` fails in transport. -/
def envWorkFails : RefreshEnv :=
  { info := InfoReply.object (some 501) (some 7800)
    pendingWork := WorkReply.error
    work := WorkReply.candidate { Msg := headerH2, Target := some 12000, PK := "pk-1" } }

/-- Probe replies of a cycle in which `A` and `C` answer and `B` does not. -/
def worksAC : Nat → WorkReply
  | 1 => WorkReply.error
  | _ => WorkReply.candidate { Msg := headerH, Target := some 12345, PK := "pk-1" }

/-- Probe replies of a cycle in which only `C` answers. -/
def worksOnlyC : Nat → WorkReply
  | 2 => WorkReply.candidate { Msg := headerH, Target := some 12345, PK := "pk-1" }
  | _ => WorkReply.error

/-- Node `A` after five consecutive failures. -/
def sickNode : RPCClient := iter RPCClient.markSick 5 nodeA

/-- The snapshot published by the first refresh of `server0` with `envH500`. -/
def template500 : BlockTemplate :=
  { Header := headerH, Seed := "pk-1", Target := "12345", Difficulty := 7777, Height := 500
    GetPendingBlockCache := { Number := 500, Target := 1000 }
    headers := [(headerH, { diff := some 12345, height := 500 })] }

/-- The snapshot published by a refresh with `envH501` on top of `template500`. -/
def template501 : BlockTemplate :=
  { Header := headerH2, Seed := "pk-1", Target := "12000", Difficulty := 7800, Height := 501
    GetPendingBlockCache := { Number := 501, Target := 1000 }
    headers := [(headerH, { diff := some 12345, height := 500 }),
                (headerH2, { diff := some 12000, height := 501 })] }

/-- The node announces `H` once more, now at chain height 502. -/
def envH502 : RefreshEnv :=
  { info := InfoReply.object (some 502) (some 7900)
    pendingWork := WorkReply.candidate { Msg := headerH, Target := some 11000, PK := "pk-1" }
    work := WorkReply.candidate { Msg := headerH, Target := some 11000, PK := "pk-1" } }

/-- The snapshot published by the third of the refreshes `envH500`, `envH501`,
`envH502`. -/
def template502 : BlockTemplate :=
  { Header := headerH, Seed := "pk-1", Target := "11000", Difficulty := 7900, Height := 502
    GetPendingBlockCache := { Number := 502, Target := 1000 }
    headers := [(headerH2, { diff := some 12000, height := 501 }),
                (headerH, { diff := some 12345, height := 500 })] }

/-- The pending-block fetch gets its replies, the candidate fetch of
`fetchBlockTemplate` fails in transport. -/
def envSecondWorkFails : RefreshEnv :=
  { info := InfoReply.object (some 500) (some 7777)
    pendingWork := WorkReply.candidate { Msg := headerH, Target := some 12345, PK := "pk-1" }
    work := WorkReply.error }

/-- The proxy after a first refresh that published nothing. -/
def serverNoSnapshot : ProxyServer := (server0.fetchBlockTemplate envSecondWorkFails).server

/-- The session of the submitting miner. -/
def minerSession : Session := { ip := "10.0.0.7" }

/-- The policy lets the submitter continue. -/
def envPolicyAllows : SubmitEnv := { share := envAccepted, sharePolicy := true }

/-- The node announces `H2` at chain height 503, three blocks after `H`. -/
def envH503 : RefreshEnv :=
  { info := InfoReply.object (some 503) (some 7800)
    pendingWork := WorkReply.candidate { Msg := headerH2, Target := some 12000, PK := "pk-1" }
    work := WorkReply.candidate { Msg := headerH2, Target := some 12000, PK := "pk-1" } }

/-- The snapshot published by the second of the refreshes `envH500`, `envH503`: the
entry of `H` (height 500) has left the backlog. -/
def template503 : BlockTemplate :=
  { Header := headerH2, Seed := "pk-1", Target := "12000", Difficulty := 7800, Height := 503
    GetPendingBlockCache := { Number := 503, Target := 1000 }
    headers := [(headerH2, { diff := some 12000, height := 503 })] }

/-- The proxy after the refreshes `envH500`, `envH503`. -/
def server503 : ProxyServer := (server0.refreshes [envH500, envH503]).server

/-- The node answers the submission with status 400. -/
def envRejected : ShareEnv :=
  { post := PostReply.status 400 "Bad Request"
    refresh := envH503
    writeBlock := (false, false)
    writeShare := (false, false) }

/-- The node rejects the submission and the policy lets the submitter continue. -/
def envRejectedPolicyAllows : SubmitEnv := { share := envRejected, sharePolicy := true }

/-- Header key a refresh announces: the `Msg` of the work reply that
`fetchBlockTemplate` compares and stores. -/
def RefreshEnv.announcedKey (e : RefreshEnv) : Option String :=
  match e.work with
  | WorkReply.candidate c => some c.Msg
  | _ => none

/-- The distinct header keys that the replies `envs` announce at chain height `h`. -/
def announcedAt (envs : List RefreshEnv) (h : Nat) : List String :=
  (envs.filterMap
    (fun e => if e.info.headersHeight = h then e.announcedKey else none)).dedup

/-- Node replies announcing header `keyAt i` at chain height `100 + i`. -/
def risingEnv (i : Nat) : RefreshEnv :=
  { info := InfoReply.object (some (100 + i)) (some 1)
    pendingWork := WorkReply.candidate { Msg := keyAt i, Target := some 7, PK := "pk" }
    work := WorkReply.candidate { Msg := keyAt i, Target := some 7, PK := "pk" } }

/-- Four refreshes at the heights 100, 101, 102, 103, each with its own header. -/
def risingEnvs : List RefreshEnv := [risingEnv 0, risingEnv 1, risingEnv 2, risingEnv 3]

/-- The snapshot published by the last of the refreshes `risingEnvs`. -/
def template103 : BlockTemplate :=
  { Header := keyAt 3, Seed := "pk", Target := "7", Difficulty := 1, Height := 103
    GetPendingBlockCache := { Number := 103, Target := 1000 }
    headers := [(keyAt 2, { diff := some 7, height := 102 }),
                (keyAt 1, { diff := some 7, height := 101 }),
                (keyAt 3, { diff := some 7, height := 103 })] }

/-- Node replies announcing header `keyAt i` at chain height `N + 3 - i`: one header
per height, the heights falling. -/
def descendingEnv (N i : Nat) : RefreshEnv :=
  { info := InfoReply.object (some (N + 3 - i)) (some 1)
    pendingWork := WorkReply.candidate { Msg := keyAt i, Target := some 7, PK := "pk" }
    work := WorkReply.candidate { Msg := keyAt i, Target := some 7, PK := "pk" } }

/-- The replies `descendingEnv N i, ..., descendingEnv N (i + n - 1)`. -/
def descendingEnvs (N : Nat) : Nat → Nat → List RefreshEnv
  | _, 0 => []
  | i, n + 1 => descendingEnv N i :: descendingEnvs N (i + 1) n

/-! ## predicates used in the statements -/

/-- Exactly `n` failures were reported since the start or since the last five
successes in a row: `pre` splits into a part that is empty or ends with five
successes, and a stretch without five successes in a row that holds `n` failures. -/
def FailuresSinceReset (pre : List Outcome) (n : Nat) : Prop :=
  ∃ a b, pre = a ++ b ∧ (a = [] ∨ List.replicate 5 Outcome.success <:+ a) ∧
    NoFiveSuccesses b ∧ b.count Outcome.failure = n

/-- What the counters of a handle record about the reports `pre` made so far. -/
def HealthInv (pre : List Outcome) (s : RPCClient) : Prop :=
  ∃ a b, pre = a ++ b ∧ (a = [] ∨ List.replicate 5 Outcome.success <:+ a) ∧
    NoFiveSuccesses b ∧ (trailingSuccesses b : Int) = s.successRate ∧
    s.successRate < 5 ∧
    (s.sick = false → s.sickRate = (b.count Outcome.failure : Int) ∧ s.sickRate < 5) ∧
    (s.sick = true → 0 < b.count Outcome.failure)

/-- The backlog of `t` has one entry per key, and every entry lies in the window
below the snapshot's height and was announced with its height by a reply of `all`. -/
def BacklogFrom (all : List RefreshEnv) (t : BlockTemplate) : Prop :=
  (t.headers.map Prod.fst).Nodup ∧
  ∀ p ∈ t.headers, p.2.height ≤ t.Height ∧
    (p.2.height : Int) > (t.Height : Int) - (maxBacklog : Int) ∧
    ∃ e ∈ all, e.announcedKey = some p.1 ∧ e.info.headersHeight = p.2.height

/-- State reached after `i` refreshes that announced `keyAt 0, ..., keyAt (i - 1)` at
the falling heights `N + 3, N + 2, ...`. -/
def DescInv (N i : Nat) (s : ProxyServer) : Prop :=
  (∃ r, s.rpc = some r) ∧
  match s.blockTemplate with
  | none => i = 0
  | some t =>
    t.headers.length = i ∧ (t.headers.map Prod.fst).Nodup ∧
    (∀ p ∈ t.headers, ∃ j, j < i ∧ p.1 = keyAt j ∧ p.2.height = N + 3 - j) ∧
    ∃ j, j < i ∧ t.Header = keyAt j

/-- Window of the backlog, read over the integers. -/
def InWindow (t : BlockTemplate) : Prop :=
  ∀ p ∈ t.headers, (p.2.height : Int) > (t.Height : Int) - (maxBacklog : Int)

/-- State reached after `i` refreshes that announced `keyAt 0, ..., keyAt (i - 1)` at
height 100. -/
def FamInv (i : Nat) (s : ProxyServer) : Prop :=
  (∃ r, s.rpc = some r) ∧
  match s.blockTemplate with
  | none => i = 0
  | some t =>
    t.headers.length = i ∧ (t.headers.map Prod.fst).Nodup ∧
    (∀ p ∈ t.headers, p.2.height = 100 ∧ ∃ j, j < i ∧ p.1 = keyAt j) ∧
    ∃ j, j < i ∧ t.Header = keyAt j


/-! ## theorems: health counters (C2, C3) -/

theorem wrapInt64_of_small (x : Int) (h0 : -9223372036854775808 ≤ x)
    (h1 : x < 9223372036854775808) : wrapInt64 x = x := by
  unfold wrapInt64; omega

theorem trailingSuccesses_append_failure (b : List Outcome) :
    trailingSuccesses (b ++ [Outcome.failure]) = 0 := by
  simp [trailingSuccesses, List.takeWhile]

theorem trailingSuccesses_append_success (b : List Outcome) :
    trailingSuccesses (b ++ [Outcome.success]) = trailingSuccesses b + 1 := by
  simp [trailingSuccesses, List.takeWhile]

theorem trailingSuccesses_append_replicate (x : List Outcome) (n : Nat) :
    n ≤ trailingSuccesses (x ++ List.replicate n Outcome.success) := by
  induction n generalizing x with
  | zero => simp
  | succ n ih =>
    have : x ++ List.replicate (n + 1) Outcome.success
        = (x ++ List.replicate n Outcome.success) ++ [Outcome.success] := by
      rw [List.replicate_succ', List.append_assoc]
    rw [this, trailingSuccesses_append_success]
    have := ih x
    omega

theorem replicate_suffix_of_trailing (b : List Outcome) :
    List.replicate (trailingSuccesses b) Outcome.success <:+ b := by
  induction b using List.reverseRecOn with
  | nil => simp [trailingSuccesses]
  | append_singleton b o ih =>
    cases o with
    | failure => rw [trailingSuccesses_append_failure]; simp
    | success =>
      rw [trailingSuccesses_append_success, List.replicate_succ']
      obtain ⟨t, ht⟩ := ih
      exact ⟨t, by rw [← List.append_assoc, ht]⟩

theorem noFive_nil : NoFiveSuccesses [] := by
  rintro ⟨x, y, h⟩
  have := congrArg List.length h
  simp at this
  omega

theorem noFive_append_failure (b : List Outcome) (h : NoFiveSuccesses b) :
    NoFiveSuccesses (b ++ [Outcome.failure]) := by
  rintro ⟨x, y, hxy⟩
  rcases List.eq_nil_or_concat y with rfl | ⟨y', z, rfl⟩
  · have := congrArg List.getLast? hxy
    simp [List.replicate] at this
  · rw [List.concat_eq_append, ← List.append_assoc] at hxy
    have := List.append_inj_left' hxy rfl
    exact h ⟨x, y', this⟩

theorem noFive_append_success (b : List Outcome) (h : NoFiveSuccesses b)
    (ht : trailingSuccesses b < 4) : NoFiveSuccesses (b ++ [Outcome.success]) := by
  rintro ⟨x, y, hxy⟩
  rcases List.eq_nil_or_concat y with rfl | ⟨y', z, rfl⟩
  · have h5 : List.replicate 5 Outcome.success
        = List.replicate 4 Outcome.success ++ [Outcome.success] := rfl
    rw [List.append_nil, h5, ← List.append_assoc] at hxy
    have := List.append_inj_left' hxy rfl
    have h4 := trailingSuccesses_append_replicate x 4
    rw [← this] at h4
    omega
  · rw [List.concat_eq_append, ← List.append_assoc] at hxy
    have := List.append_inj_left' hxy rfl
    exact h ⟨x, y', this⟩


theorem healthInv_fresh (name url : String) : HealthInv [] (NewRPCClient name url) :=
  ⟨[], [], rfl, Or.inl rfl, noFive_nil, by simp [trailingSuccesses, NewRPCClient],
    by simp [NewRPCClient], by simp [NewRPCClient], by simp [NewRPCClient]⟩

theorem replicate_five_suffix_of_trailing_four (pre b : List Outcome) (hb : b <:+ pre)
    (h4 : trailingSuccesses b = 4) :
    List.replicate 5 Outcome.success <:+ pre ++ [Outcome.success] := by
  have hsuf := replicate_suffix_of_trailing b
  rw [h4] at hsuf
  obtain ⟨t, ht⟩ := hsuf.trans hb
  refine ⟨t, ?_⟩
  rw [← ht]
  simp [List.replicate]

theorem healthInv_report (pre : List Outcome) (s : RPCClient) (o : Outcome)
    (h : HealthInv pre s) : HealthInv (pre ++ [o]) (s.report o) := by
  obtain ⟨a, b, hab, ha, hno, htr, h5, hs, hk⟩ := h
  cases o with
  | failure =>
    refine ⟨a, b ++ [Outcome.failure], by rw [hab, List.append_assoc], ha,
      noFive_append_failure b hno, ?_, ?_, ?_, ?_⟩
    · simp [trailingSuccesses_append_failure, RPCClient.report, RPCClient.markSick]
    · simp [RPCClient.report, RPCClient.markSick]
    · intro hsick
      simp only [RPCClient.report, RPCClient.markSick] at hsick ⊢
      by_cases hc : wrapInt64 (s.sickRate + 1) ≥ 5
      · simp [hc] at hsick
      · simp only [hc, if_false] at hsick
        obtain ⟨h1, h2⟩ := hs hsick
        have hcnt : 0 ≤ (List.count Outcome.failure b : Int) := Int.natCast_nonneg _
        have hw : wrapInt64 (s.sickRate + 1) = s.sickRate + 1 :=
          wrapInt64_of_small _ (by omega) (by omega)
        rw [hw] at hc ⊢
        refine ⟨?_, by omega⟩
        rw [h1]
        simp [List.count_append]
    · intro _
      simp [List.count_append]
  | success =>
    have h0 : 0 ≤ s.successRate := by rw [← htr]; exact Int.natCast_nonneg _
    have hw : wrapInt64 (s.successRate + 1) = s.successRate + 1 :=
      wrapInt64_of_small _ (by omega) (by omega)
    by_cases hc : s.successRate + 1 ≥ 5
    · have h4 : trailingSuccesses b = 4 := by omega
      have hsuf : List.replicate 5 Outcome.success <:+ pre ++ [Outcome.success] :=
        replicate_five_suffix_of_trailing_four pre b ⟨a, hab.symm⟩ h4
      refine ⟨pre ++ [Outcome.success], [], by simp, Or.inr hsuf, noFive_nil, ?_, ?_, ?_, ?_⟩ <;>
        simp [RPCClient.report, RPCClient.markAlive, hw, hc, trailingSuccesses]
    · refine ⟨a, b ++ [Outcome.success], by rw [hab, List.append_assoc], ha,
        noFive_append_success b hno (by omega), ?_, ?_, ?_, ?_⟩
      · simp only [RPCClient.report, RPCClient.markAlive, hw, hc, if_false,
          trailingSuccesses_append_success]
        push_cast
        omega
      · simp only [RPCClient.report, RPCClient.markAlive, hw, hc, if_false]
        omega
      · intro hsick
        simp only [RPCClient.report, RPCClient.markAlive, hw, hc, if_false] at hsick ⊢
        obtain ⟨h1, h2⟩ := hs hsick
        refine ⟨?_, h2⟩
        rw [h1]
        simp [List.count_append]
      · intro hsick
        simp only [RPCClient.report, RPCClient.markAlive, hw, hc, if_false] at hsick
        have := hk hsick
        simp only [List.count_append]
        omega

theorem reports_append (r : RPCClient) (pre : List Outcome) (o : Outcome) :
    r.reports (pre ++ [o]) = (r.reports pre).report o := by
  simp [RPCClient.reports, List.foldl_append]

theorem healthInv_reports (name url : String) (pre : List Outcome) :
    HealthInv pre ((NewRPCClient name url).reports pre) := by
  induction pre using List.reverseRecOn with
  | nil => exact healthInv_fresh name url
  | append_singleton pre o ih =>
    rw [reports_append]
    exact healthInv_report pre _ o ih

/-- Reports standing between a run of five successes (or the start) and a later
stretch without such a run are all successes. -/
theorem count_failure_between (a d b0 : List Outcome)
    (ha : a ++ d = [] ∨ List.replicate 5 Outcome.success <:+ a ++ d)
    (hb : NoFiveSuccesses (d ++ b0)) : d.count Outcome.failure = 0 := by
  rcases ha with ha | ha
  · have : d = [] := (List.append_eq_nil.mp ha).2
    simp [this]
  · have hd : d <:+ a ++ d := List.suffix_append a d
    rcases List.suffix_or_suffix_of_suffix ha hd with h | h
    · obtain ⟨x, hx⟩ := h
      exact absurd ⟨x, b0, by rw [← hx]⟩ hb
    · apply List.count_eq_zero.mpr
      intro hmem
      have := List.eq_of_mem_replicate (h.subset hmem)
      cases this

/-- The number of failures since the start or the last five successes in a row does
not depend on where the stretch is cut. -/
theorem count_failure_unique (a b a0 b0 : List Outcome) (h : a ++ b = a0 ++ b0)
    (ha : a = [] ∨ List.replicate 5 Outcome.success <:+ a) (hb : NoFiveSuccesses b)
    (ha0 : a0 = [] ∨ List.replicate 5 Outcome.success <:+ a0) (hb0 : NoFiveSuccesses b0) :
    b.count Outcome.failure = b0.count Outcome.failure := by
  rcases List.append_eq_append_iff.mp h with ⟨d, h1, h2⟩ | ⟨d, h1, h2⟩
  · have := count_failure_between a d b0 (by rw [← h1]; exact ha0) (by rw [← h2]; exact hb)
    rw [h2, List.count_append, this, Nat.zero_add]
  · have := count_failure_between a0 d b (by rw [← h1]; exact ha) (by rw [← h2]; exact hb0)
    rw [h2, List.count_append, this, Nat.zero_add]

theorem trailingSuccesses_append_of_failure (a b : List Outcome)
    (h : 0 < b.count Outcome.failure) : trailingSuccesses (a ++ b) = trailingSuccesses b := by
  induction b using List.reverseRecOn with
  | nil => simp at h
  | append_singleton b o ih =>
    cases o with
    | failure =>
      rw [← List.append_assoc, trailingSuccesses_append_failure,
        trailingSuccesses_append_failure]
    | success =>
      have hb : 0 < b.count Outcome.failure := by
        simpa [List.count_append] using h
      rw [← List.append_assoc, trailingSuccesses_append_success,
        trailingSuccesses_append_success, ih hb]

theorem trailing_ge_of_replicate_suffix (l : List Outcome) (n : Nat)
    (h : List.replicate n Outcome.success <:+ l) : n ≤ trailingSuccesses l := by
  obtain ⟨x, hx⟩ := h
  rw [← hx]
  exact trailingSuccesses_append_replicate x n

/-- C2 (as stated, refuted). After four failures and one success a fresh node is
Healthy; the next failure, which completes a run of one, makes it Sick. -/
theorem sick_flips_after_interrupted_failures :
    ((NewRPCClient "node" "http://node").reports
        [Outcome.failure, Outcome.failure, Outcome.failure, Outcome.failure,
          Outcome.success]).sick = false ∧
    (((NewRPCClient "node" "http://node").reports
        [Outcome.failure, Outcome.failure, Outcome.failure, Outcome.failure,
          Outcome.success]).report Outcome.failure).sick = true ∧
    ¬ (List.replicate 5 Outcome.failure <:+
        [Outcome.failure, Outcome.failure, Outcome.failure, Outcome.failure,
          Outcome.success] ++ [Outcome.failure]) := by
  refine ⟨by decide, by decide, by decide⟩

/-- C2 (amended). From a fresh node and after any reports `pre`, the report `o` turns
a Sick node Healthy exactly when it is a success completing five successes in a row,
and turns a Healthy node Sick exactly when it is a failure and exactly four failures
were reported since the start or since the last five successes in a row
(`FailuresSinceReset pre 4`: it is the fifth such failure, whatever successes lie
between them). No other report changes the flag. -/
theorem sick_flag_changes_only_at_threshold (name url : String) (pre : List Outcome)
    (o : Outcome) :
    ((((NewRPCClient name url).reports pre).sick = true ∧
        (((NewRPCClient name url).reports pre).report o).sick = false) ↔
      (((NewRPCClient name url).reports pre).sick = true ∧ o = Outcome.success ∧
        List.replicate 5 Outcome.success <:+ pre ++ [o])) ∧
    ((((NewRPCClient name url).reports pre).sick = false ∧
        (((NewRPCClient name url).reports pre).report o).sick = true) ↔
      (((NewRPCClient name url).reports pre).sick = false ∧ o = Outcome.failure ∧
        FailuresSinceReset pre 4)) := by
  obtain ⟨a0, b0, hab, ha0, hno, htr, h5, hs, hk⟩ := healthInv_reports name url pre
  generalize (NewRPCClient name url).reports pre = s at htr h5 hs hk ⊢
  have h0 : 0 ≤ s.successRate := by rw [← htr]; exact Int.natCast_nonneg _
  have hw : wrapInt64 (s.successRate + 1) = s.successRate + 1 :=
    wrapInt64_of_small _ (by omega) (by omega)
  constructor
  · constructor
    · rintro ⟨hsick, hafter⟩
      cases o with
      | failure =>
        simp only [RPCClient.report, RPCClient.markSick, hsick] at hafter
        split at hafter <;> cases hafter
      | success =>
        simp only [RPCClient.report, RPCClient.markAlive, hw] at hafter
        by_cases hc : s.successRate + 1 ≥ 5
        · have h4 : trailingSuccesses b0 = 4 := by omega
          exact ⟨hsick, rfl,
            replicate_five_suffix_of_trailing_four pre b0 ⟨a0, hab.symm⟩ h4⟩
        · simp only [hc, if_false] at hafter
          rw [hsick] at hafter
          cases hafter
    · rintro ⟨hsick, rfl, hsuf⟩
      refine ⟨hsick, ?_⟩
      have h4 : List.replicate 4 Outcome.success <:+ pre := by
        obtain ⟨x, hx⟩ := hsuf
        have e : List.replicate 5 Outcome.success
            = List.replicate 4 Outcome.success ++ [Outcome.success] := rfl
        rw [e, ← List.append_assoc] at hx
        exact ⟨x, List.append_inj_left' hx rfl⟩
      have hge := trailing_ge_of_replicate_suffix pre 4 h4
      have htp : trailingSuccesses pre = trailingSuccesses b0 := by
        rw [hab]
        exact trailingSuccesses_append_of_failure a0 b0 (hk hsick)
      have hc : s.successRate + 1 ≥ 5 := by omega
      simp [RPCClient.report, RPCClient.markAlive, hw, hc]
  · constructor
    · rintro ⟨hhealthy, hafter⟩
      cases o with
      | success =>
        simp only [RPCClient.report, RPCClient.markAlive, hw] at hafter
        split at hafter
        · cases hafter
        · rw [hhealthy] at hafter
          cases hafter
      | failure =>
        obtain ⟨h1, h2⟩ := hs hhealthy
        have hcnt : 0 ≤ (List.count Outcome.failure b0 : Int) := Int.natCast_nonneg _
        have hws : wrapInt64 (s.sickRate + 1) = s.sickRate + 1 :=
          wrapInt64_of_small _ (by omega) (by omega)
        simp only [RPCClient.report, RPCClient.markSick, hws, hhealthy] at hafter
        by_cases hc : s.sickRate + 1 ≥ 5
        · exact ⟨hhealthy, rfl, a0, b0, hab, ha0, hno, by omega⟩
        · simp [hc] at hafter
    · rintro ⟨hhealthy, rfl, a, b, hab2, ha, hb, hcount⟩
      refine ⟨hhealthy, ?_⟩
      obtain ⟨h1, h2⟩ := hs hhealthy
      have heq := count_failure_unique a b a0 b0 (by rw [← hab2, ← hab]) ha hb ha0 hno
      have hws : wrapInt64 (s.sickRate + 1) = s.sickRate + 1 :=
        wrapInt64_of_small _ (by omega) (by omega)
      have hc : s.sickRate + 1 ≥ 5 := by omega
      simp [RPCClient.report, RPCClient.markSick, hws, hc]

/-- C2 (amended), at the reports `F F F F S` followed by `F`: the flag turns Sick, so
exactly four failures precede since the start. -/
theorem sick_flag_changes_only_at_threshold_witness :
    FailuresSinceReset
      [Outcome.failure, Outcome.failure, Outcome.failure, Outcome.failure, Outcome.success]
      4 :=
  ((sick_flag_changes_only_at_threshold "node" "http://node"
      [Outcome.failure, Outcome.failure, Outcome.failure, Outcome.failure, Outcome.success]
      Outcome.failure).2.mp ⟨by decide, by decide⟩).2.2

theorem iter_markSick_sick (n : Nat) (r : RPCClient) (h : r.sick = true) :
    (iter RPCClient.markSick n r).sick = true := by
  induction n generalizing r with
  | zero => exact h
  | succ n ih =>
    apply ih
    simp [RPCClient.markSick, h]

theorem iter_markSick_healthy (n : Nat) (r : RPCClient) (h : r.sick = false)
    (h0 : 0 ≤ r.sickRate) (h5 : r.sickRate < 5) :
    ((iter RPCClient.markSick n r).sick = true ↔ 5 ≤ r.sickRate + n) := by
  induction n generalizing r with
  | zero => simp [iter, h]; omega
  | succ n ih =>
    have hw : wrapInt64 (r.sickRate + 1) = r.sickRate + 1 :=
      wrapInt64_of_small _ (by omega) (by omega)
    by_cases hc : r.sickRate + 1 ≥ 5
    · have : (iter RPCClient.markSick (n + 1) r).sick = true := by
        show (iter RPCClient.markSick n r.markSick).sick = true
        apply iter_markSick_sick
        simp [RPCClient.markSick, hw, hc]
      simp only [this, true_iff]
      push_cast
      omega
    · have := ih r.markSick (by simp [RPCClient.markSick, hw, hc, h])
        (by simp only [RPCClient.markSick, hw]; omega)
        (by simp only [RPCClient.markSick, hw]; omega)
      show (iter RPCClient.markSick n r.markSick).sick = true ↔ _
      rw [this]
      simp only [RPCClient.markSick, hw]
      push_cast
      omega

/-- C3 (as stated, refuted). Five failures then three successes leave a node Sick with
`successRate = 3`; five further `markAlive` calls end with `successRate = 3`, not 0. -/
theorem recovery_keeps_pending_successes :
    ((NewRPCClient "node" "http://node").reports
        [Outcome.failure, Outcome.failure, Outcome.failure, Outcome.failure,
          Outcome.failure, Outcome.success, Outcome.success, Outcome.success]).Sick = true ∧
    (iter RPCClient.markAlive 5 ((NewRPCClient "node" "http://node").reports
        [Outcome.failure, Outcome.failure, Outcome.failure, Outcome.failure,
          Outcome.failure, Outcome.success, Outcome.success, Outcome.success])).successRate
      = 3 := by
  refine ⟨by decide, by decide⟩

/-- C3 (amended). After `n` consecutive `markSick` calls a fresh node is Sick exactly
when `n >= 5`; from a Sick state with `0 <= successRate < 5`, five consecutive
`markAlive` calls leave `sick = false`, `sickRate = 0` and `successRate` at the value it
had before them (so 0 when it was 0, as it is right after any `markSick`). -/
theorem hysteresis_thresholds (name url : String) (n : Nat) (r : RPCClient)
    (hs : r.sick = true) (h0 : 0 ≤ r.successRate) (h5 : r.successRate < 5) :
    ((iter RPCClient.markSick n (NewRPCClient name url)).Sick = true ↔ 5 ≤ n) ∧
    (iter RPCClient.markAlive 5 r).sick = false ∧
    (iter RPCClient.markAlive 5 r).sickRate = 0 ∧
    (iter RPCClient.markAlive 5 r).successRate = r.successRate := by
  refine ⟨?_, ?_⟩
  · have := iter_markSick_healthy n (NewRPCClient name url) rfl (by simp [NewRPCClient])
      (by simp [NewRPCClient])
    simpa [RPCClient.Sick, NewRPCClient] using this
  · have hw : ∀ k : Int, 0 ≤ k → k < 5 → wrapInt64 (k + 1) = k + 1 := fun k a b =>
      wrapInt64_of_small _ (by omega) (by omega)
    obtain ⟨url, name, sick, sickRate, successRate⟩ := r
    simp only at hs h0 h5
    have hcases : successRate = 0 ∨ successRate = 1 ∨ successRate = 2 ∨ successRate = 3 ∨
        successRate = 4 := by omega
    rcases hcases with rfl | rfl | rfl | rfl | rfl <;>
      simp [iter, RPCClient.markAlive, wrapInt64]


/-- C3 (amended), at four `markSick` calls on a fresh node and at the Sick state
reached by five. -/
theorem hysteresis_thresholds_witness :
    sickNode.sick = true ∧ 0 ≤ sickNode.successRate ∧ sickNode.successRate < 5 ∧
    (((iter RPCClient.markSick 4 (NewRPCClient "A" "http://a.example:9052")).Sick = true
        ↔ 5 ≤ 4) ∧
      (iter RPCClient.markAlive 5 sickNode).sick = false ∧
      (iter RPCClient.markAlive 5 sickNode).sickRate = 0 ∧
      (iter RPCClient.markAlive 5 sickNode).successRate = sickNode.successRate) :=
  ⟨by decide, by decide, by decide,
    hysteresis_thresholds "A" "http://a.example:9052" 4 sickNode (by decide) (by decide)
      (by decide)⟩

/-! ## theorems: upstream selection (C4) -/

theorem wrapInt32_of_small (k : Nat) (h : k < 2147483648) : wrapInt32 (k : Int) = k := by
  unfold wrapInt32; omega

theorem probeResults_length (works : Nat → WorkReply) (vs : List RPCClient) (i : Nat) :
    (probeResults works i vs).length = vs.length := by
  induction vs generalizing i with
  | nil => rfl
  | cons v vs ih => simp [probeResults, ih]

theorem checkLoop_spec (works : Nat → WorkReply) (vs : List RPCClient) :
    ∀ (i : Nat) (c : Int) (b : Bool),
      (checkLoop works i vs c b).1.length = vs.length ∧
      (checkLoop works i vs c b).2.1 = (List.range' i vs.length).map Effect.probe ∧
      (b = true → (checkLoop works i vs c b).2.2.1 = c) ∧
      (b = false → (∀ x ∈ probeResults works i vs, x = false) →
        (checkLoop works i vs c b).2.2.1 = c) ∧
      (b = false → ∀ k, (probeResults works i vs).get? k = some true →
        (∀ j, j < k → (probeResults works i vs).get? j = some false) →
        (checkLoop works i vs c b).2.2.1 = wrapInt32 ((i + k : Nat) : Int)) := by
  induction vs with
  | nil =>
    intro i c b
    simp [checkLoop, probeResults]
  | cons v vs ih =>
    intro i c b
    cases hok : (v.Check (works i)).2 with
    | false =>
      obtain ⟨h1, h2, h3, h4, h5⟩ := ih (i + 1) c b
      refine ⟨?_, ?_, ?_, ?_, ?_⟩
      · simp [checkLoop, hok, h1]
      · simp [checkLoop, hok, h2, List.range']
      · intro hb; simpa [checkLoop, hok] using h3 hb
      · intro hb hall
        have := h4 hb (fun x hx => hall x (by simp [probeResults, hx]))
        simpa [checkLoop, hok] using this
      · intro hb k hk hlt
        cases k with
        | zero => simp [probeResults, hok] at hk
        | succ k =>
          have hk1 : (probeResults works (i + 1) vs).get? k = some true := by
            simpa [probeResults] using hk
          have hlt1 : ∀ j, j < k → (probeResults works (i + 1) vs).get? j = some false := by
            intro j hj
            have := hlt (j + 1) (by omega)
            simpa [probeResults] using this
          have := h5 hb k hk1 hlt1
          have e : i + 1 + k = i + (k + 1) := by omega
          rw [e] at this
          simpa [checkLoop, hok] using this
    | true =>
      cases b with
      | true =>
        obtain ⟨h1, h2, h3, _, _⟩ := ih (i + 1) c true
        refine ⟨?_, ?_, ?_, ?_, ?_⟩
        · simp [checkLoop, hok, h1]
        · simp [checkLoop, hok, h2, List.range']
        · intro _; simpa [checkLoop, hok] using h3 rfl
        · intro hb; cases hb
        · intro hb; cases hb
      | false =>
        obtain ⟨h1, h2, h3, _, _⟩ := ih (i + 1) (wrapInt32 i) true
        refine ⟨?_, ?_, ?_, ?_, ?_⟩
        · simp [checkLoop, hok, h1]
        · simp [checkLoop, hok, h2, List.range']
        · intro hb; cases hb
        · intro _ hall
          have := hall true (by simp [probeResults, hok])
          cases this
        · intro _ k hk hlt
          cases k with
          | zero => simpa [checkLoop, hok] using h3 rfl
          | succ k =>
            have := hlt 0 (by omega)
            simp [probeResults, hok] at this

theorem first_true_or_all_false (l : List Bool) :
    (∀ x ∈ l, x = false) ∨
    ∃ k, l.get? k = some true ∧ ∀ j, j < k → l.get? j = some false := by
  induction l with
  | nil => left; simp
  | cons a l ih =>
    cases a with
    | true => right; exact ⟨0, by simp, by intro j hj; omega⟩
    | false =>
      rcases ih with h | ⟨k, hk, hlt⟩
      · left; simpa using h
      · right
        refine ⟨k + 1, by simpa using hk, ?_⟩
        intro j hj
        cases j with
        | zero => simp
        | succ j => simpa using hlt j (by omega)

theorem checkLoop_candidate_range (works : Nat → WorkReply) (vs : List RPCClient)
    (hne : vs ≠ []) (hlen : vs.length ≤ 2147483648) :
    0 ≤ (checkLoop works 0 vs 0 false).2.2.1 ∧
    ((checkLoop works 0 vs 0 false).2.2.1).toNat < (checkLoop works 0 vs 0 false).1.length := by
  obtain ⟨h1, _, _, h4, h5⟩ := checkLoop_spec works vs 0 0 false
  have hpos : 0 < vs.length := List.length_pos.mpr hne
  rcases first_true_or_all_false (probeResults works 0 vs) with hall | ⟨k, hk, hlt⟩
  · rw [h4 rfl hall, h1]
    simpa using hpos
  · have hkl : k < vs.length := by
      have := List.get?_eq_some.mp hk
      obtain ⟨hh, _⟩ := this
      rwa [probeResults_length] at hh
    have := h5 rfl k hk hlt
    rw [Nat.zero_add, wrapInt32_of_small k (by omega)] at this
    rw [this, h1]
    constructor
    · exact Int.natCast_nonneg _
    · simpa using hkl

/-- C4. For a non-empty upstream list (of at most 2^31 nodes, so that every position
fits the `int32` index) `checkUpstreams` returns normally, probes every node once in
list order, leaves the active index at the first position whose probe returned true,
or at 0 when no probe did, and stores the index only when it differs from the
previous one. -/
theorem checkUpstreams_selects_first_healthy (s : ProxyServer) (works : Nat → WorkReply)
    (hne : s.upstreams ≠ []) (hlen : s.upstreams.length ≤ 2147483648) :
    (s.checkUpstreams works).result = some () ∧
    (∀ k, (probeResults works 0 s.upstreams).get? k = some true →
      (∀ j, j < k → (probeResults works 0 s.upstreams).get? j = some false) →
      (s.checkUpstreams works).server.upstream = (k : Int)) ∧
    ((∀ x ∈ probeResults works 0 s.upstreams, x = false) →
      (s.checkUpstreams works).server.upstream = 0) ∧
    (s.checkUpstreams works).trace =
      (List.range s.upstreams.length).map Effect.probe ++
        (if s.upstream = (s.checkUpstreams works).server.upstream then []
         else [Effect.storeUpstream (s.checkUpstreams works).server.upstream]) := by
  obtain ⟨h1, h2, _, h4, h5⟩ := checkLoop_spec works s.upstreams 0 0 false
  obtain ⟨hr0, hr1⟩ := checkLoop_candidate_range works s.upstreams hne hlen
  have hrange : List.range' 0 s.upstreams.length = List.range s.upstreams.length :=
    (List.range_eq_range' _).symm
  rw [hrange] at h2
  have hup : (s.checkUpstreams works).server.upstream
      = (checkLoop works 0 s.upstreams 0 false).2.2.1 := by
    unfold ProxyServer.checkUpstreams
    by_cases hc : s.upstream = (checkLoop works 0 s.upstreams 0 false).2.2.1
    · simp [hc]
    · simp [hc, hr0, hr1]
  refine ⟨?_, ?_, ?_, ?_⟩
  · unfold ProxyServer.checkUpstreams
    by_cases hc : s.upstream = (checkLoop works 0 s.upstreams 0 false).2.2.1
    · simp [hc]
    · simp [hc, hr0, hr1]
  · intro k hk hlt
    have hkl : k < s.upstreams.length := by
      obtain ⟨hh, _⟩ := List.get?_eq_some.mp hk
      rwa [probeResults_length] at hh
    rw [hup, h5 rfl k hk hlt, Nat.zero_add, wrapInt32_of_small k (by omega)]
  · intro hall
    rw [hup, h4 rfl hall]
  · rw [hup]
    unfold ProxyServer.checkUpstreams
    by_cases hc : s.upstream = (checkLoop works 0 s.upstreams 0 false).2.2.1
    · simp [hc, h2]
    · simp [hc, hr0, hr1, h2]

/-! ## theorems: template cache (C1, C8, C9, C10) -/

theorem mem_mapSet {m : List (String × heightDiffPair)} {k : String} {v : heightDiffPair}
    {p : String × heightDiffPair} (h : p ∈ mapSet m k v) : p = (k, v) ∨ p ∈ m := by
  simp only [mapSet, List.mem_cons, List.mem_filter] at h
  rcases h with h | ⟨h, _⟩
  · exact Or.inl h
  · exact Or.inr h

theorem length_mapSet_le (m : List (String × heightDiffPair)) (k : String) (v : heightDiffPair) :
    (mapSet m k v).length ≤ m.length + 1 := by
  simp only [mapSet, List.length_cons]
  have := List.length_filter_le (fun p : String × heightDiffPair => p.1 != k) m
  omega

theorem mem_copyBacklog (old : List (String × heightDiffPair)) :
    ∀ (acc : List (String × heightDiffPair)) (height : Nat) (p : String × heightDiffPair),
      p ∈ copyBacklog acc old height →
      p ∈ acc ∨ (p ∈ old ∧ p.2.height > wrapUint64 ((height : Int) - (maxBacklog : Int))) := by
  induction old with
  | nil => intro acc height p h; exact Or.inl h
  | cons q old ih =>
    intro acc height p h
    simp only [copyBacklog, List.foldl_cons] at h
    by_cases hq : q.2.height > wrapUint64 ((height : Int) - (maxBacklog : Int))
    · simp only [hq, if_true] at h
      rcases ih _ height p h with h1 | ⟨h1, h2⟩
      · rcases mem_mapSet h1 with h3 | h3
        · right
          subst h3
          exact ⟨by simp, hq⟩
        · exact Or.inl h3
      · exact Or.inr ⟨List.mem_cons_of_mem _ h1, h2⟩
    · simp only [hq, if_false] at h
      rcases ih _ height p h with h1 | ⟨h1, h2⟩
      · exact Or.inl h1
      · exact Or.inr ⟨List.mem_cons_of_mem _ h1, h2⟩

theorem length_copyBacklog_le (old : List (String × heightDiffPair)) :
    ∀ (acc : List (String × heightDiffPair)) (height : Nat),
      (copyBacklog acc old height).length ≤ acc.length + old.length := by
  induction old with
  | nil => intro acc height; simp [copyBacklog]
  | cons q old ih =>
    intro acc height
    simp only [copyBacklog, List.foldl_cons, List.length_cons]
    by_cases hq : q.2.height > wrapUint64 ((height : Int) - (maxBacklog : Int))
    · simp only [hq, if_true]
      have h1 := ih (mapSet acc q.1 q.2) height
      have h2 := length_mapSet_le acc q.1 q.2
      simp only [copyBacklog] at h1
      omega
    · simp only [hq, if_false]
      have h1 := ih acc height
      simp only [copyBacklog] at h1
      omega

theorem wrapUint64_sub_ge (height : Nat) (hh : height < 18446744073709551616) :
    (height : Int) - (maxBacklog : Int) ≤ (wrapUint64 ((height : Int) - (maxBacklog : Int)) : Int) := by
  unfold wrapUint64 maxBacklog
  omega

theorem newTemplate_inWindow (d : Int) (t : Option BlockTemplate) (pr : GetBlockReplyPart)
    (height diff : Nat) (reply : CandidateResp) (hh : height < 18446744073709551616) :
    InWindow (newTemplate d t pr height diff reply) := by
  intro p hp
  have hnew : ∀ q ∈ mapSet [] reply.Msg { diff := reply.Target, height := height },
      (q.2.height : Int) > (height : Int) - (maxBacklog : Int) := by
    intro q hq
    rcases mem_mapSet hq with h | h
    · subst h
      simp [maxBacklog]
    · cases h
  cases t with
  | none => exact hnew p hp
  | some t =>
    simp only [newTemplate] at hp ⊢
    rcases mem_copyBacklog _ _ _ _ hp with h | ⟨_, h⟩
    · exact hnew p h
    · have := wrapUint64_sub_ge height hh
      omega

theorem newTemplate_length_le (d : Int) (t : Option BlockTemplate) (pr : GetBlockReplyPart)
    (height diff : Nat) (reply : CandidateResp) :
    (newTemplate d t pr height diff reply).headers.length
      ≤ 1 + (match t with | none => 0 | some t => t.headers.length) := by
  cases t with
  | none => simp [newTemplate, mapSet]
  | some t =>
    simp only [newTemplate]
    have := length_copyBacklog_le t.headers
      (mapSet [] reply.Msg { diff := reply.Target, height := height }) height
    simp only [mapSet, List.filter_nil, List.length_singleton] at this ⊢
    omega

theorem setRpc_blockTemplate (s : ProxyServer) (r : RPCClient) :
    (s.setRpc r).blockTemplate = s.blockTemplate := rfl

theorem setRpc_Difficulty (s : ProxyServer) (r : RPCClient) :
    (s.setRpc r).Difficulty = s.Difficulty := rfl

theorem fetchPendingBlock_blockTemplate (s : ProxyServer) (info : InfoReply) (work : WorkReply) :
    (s.fetchPendingBlock info work).server.blockTemplate = s.blockTemplate := by
  unfold ProxyServer.fetchPendingBlock
  split
  · rfl
  · simp only []
    split
    · rfl
    · split <;> rfl

theorem GetInfo_snd (r : RPCClient) (info : InfoReply) : (r.GetInfo info).2 = info := by
  cases info <;> rfl

theorem headersHeight_lt (info : InfoReply) : info.headersHeight < 18446744073709551616 := by
  unfold InfoReply.headersHeight
  split
  · exact Nat.mod_lt _ (by decide)
  · decide

theorem fetchPendingBlock_result (s : ProxyServer) (info : InfoReply) (work : WorkReply)
    (pending : GetBlockReplyPart × Nat × Nat)
    (h : (s.fetchPendingBlock info work).result = some pending) :
    pending.2.1 = info.headersHeight ∧ pending.2.2 = info.difficulty := by
  unfold ProxyServer.fetchPendingBlock at h
  split at h
  · cases h
  · simp only [] at h
    split at h
    · cases h
    · split at h
      · cases h
      · simp only [Option.some.injEq] at h
        subst h
        simp [GetInfo_snd]

/-- What one refresh does to the published template: nothing, or one `Store` of the
template built from the previous one and the replies. -/
theorem fetchBlockTemplate_cases (s : ProxyServer) (env : RefreshEnv) :
    ((s.fetchBlockTemplate env).server.blockTemplate = s.blockTemplate ∧
      ∀ x, Effect.store x ∉ (s.fetchBlockTemplate env).trace) ∨
    (∃ reply pr,
      env.work = WorkReply.candidate reply ∧
      (∀ t, s.blockTemplate = some t → t.Header ≠ reply.Msg) ∧
      (s.fetchBlockTemplate env).server.blockTemplate =
        some (newTemplate s.Difficulty s.blockTemplate pr env.info.headersHeight
          env.info.difficulty reply) ∧
      ∀ x, Effect.store x ∈ (s.fetchBlockTemplate env).trace ↔
        x = newTemplate s.Difficulty s.blockTemplate pr env.info.headersHeight
          env.info.difficulty reply) := by
  have hp := fetchPendingBlock_blockTemplate s env.info env.pendingWork
  have hpr := fetchPendingBlock_result s env.info env.pendingWork
  have hpt : ∀ x, Effect.store x ∉ (s.fetchPendingBlock env.info env.pendingWork).trace := by
    intro x
    unfold ProxyServer.fetchPendingBlock
    split
    · simp
    · simp only []
      split
      · simp
      · split <;> simp
  unfold ProxyServer.fetchBlockTemplate
  split
  · left; simp
  · simp only []
    split
    · left; exact ⟨hp, by simpa using hpt⟩
    · rename_i pending hpend
      obtain ⟨hh, hd⟩ := hpr pending hpend
      split
      · left; exact ⟨hp, by simpa using hpt⟩
      · rename_i srpc hs
        split
        · left; exact ⟨by simp [setRpc_blockTemplate, hp], by simpa using hpt⟩
        · split
          · left; exact ⟨by simp [setRpc_blockTemplate, hp], by simpa using hpt⟩
          · rename_i reply hreply
            split
            · left; exact ⟨by simp [setRpc_blockTemplate, hp], by simpa using hpt⟩
            · rename_i hne
              right
              refine ⟨reply, pending.1, ?_, ?_, ?_, ?_⟩
              · cases hw : env.work with
                | error => rw [hw] at hreply; simp [RPCClient.GetWork] at hreply
                | null => rw [hw] at hreply; simp [RPCClient.GetWork] at hreply
                | candidate c =>
                  rw [hw] at hreply
                  simp only [RPCClient.GetWork, Option.some.injEq] at hreply
                  rw [hreply]
              · intro t ht hEq
                apply hne
                simp [ProxyServer.currentBlockTemplate, ht, hEq]
              · simp [ProxyServer.currentBlockTemplate, hh, hd]
              · intro x
                simp only [ProxyServer.currentBlockTemplate, hh, hd, List.mem_append,
                  List.mem_cons, List.mem_singleton, Effect.store.injEq, reduceCtorEq,
                  false_or, or_false, List.not_mem_nil]
                constructor
                · rintro (h | h)
                  · exact absurd h (hpt x)
                  · exact h
                · intro h; exact Or.inr h

theorem refreshes_store (envs : List RefreshEnv) :
    ∀ (s : ProxyServer) (x : BlockTemplate), Effect.store x ∈ (s.refreshes envs).trace →
      ∃ s1 env, Effect.store x ∈ (ProxyServer.fetchBlockTemplate s1 env).trace := by
  induction envs with
  | nil => intro s x h; simp [ProxyServer.refreshes] at h
  | cons env envs ih =>
    intro s x h
    simp only [ProxyServer.refreshes, List.mem_append] at h
    rcases h with h | h
    · exact ⟨s, env, h⟩
    · exact ih _ x h

theorem fetchBlockTemplate_store_inWindow (s : ProxyServer) (env : RefreshEnv)
    (x : BlockTemplate) (h : Effect.store x ∈ (s.fetchBlockTemplate env).trace) :
    InWindow x := by
  rcases fetchBlockTemplate_cases s env with ⟨_, hno⟩ | ⟨reply, pr, _, _, _, hst⟩
  · exact absurd h (hno x)
  · rw [(hst x).mp h]
    exact newTemplate_inWindow _ _ _ _ _ _ (headersHeight_lt env.info)

/-- C1. Every snapshot published in a sequence of refreshes (from any state, so also
from no snapshot, and whatever the node replies) has all its backlog heights above
`snapshot.Height - maxBacklog`, the comparison read over the integers. -/
theorem published_backlog_in_window (s : ProxyServer) (envs : List RefreshEnv)
    (t : BlockTemplate) (hpub : Effect.store t ∈ (s.refreshes envs).trace) :
    ∀ p ∈ t.headers, (p.2.height : Int) > (t.Height : Int) - (maxBacklog : Int) := by
  obtain ⟨s1, env, h⟩ := refreshes_store envs s t hpub
  exact fetchBlockTemplate_store_inWindow s1 env t h

theorem refreshes_length_bound (envs : List RefreshEnv) :
    ∀ (s : ProxyServer) (k : Nat),
      (∀ t, s.blockTemplate = some t → t.headers.length ≤ k) →
      ∀ t, Effect.store t ∈ (s.refreshes envs).trace → t.headers.length ≤ k + envs.length := by
  induction envs with
  | nil => intro s k _ t h; simp [ProxyServer.refreshes] at h
  | cons env envs ih =>
    intro s k hk t h
    simp only [ProxyServer.refreshes, List.mem_append] at h
    have hnew : ∀ pr reply,
        (newTemplate s.Difficulty s.blockTemplate pr env.info.headersHeight
          env.info.difficulty reply).headers.length ≤ k + 1 := by
      intro pr reply
      have := newTemplate_length_le s.Difficulty s.blockTemplate pr env.info.headersHeight
        env.info.difficulty reply
      cases hb : s.blockTemplate with
      | none => rw [hb] at this; simp only at this; omega
      | some t0 =>
        rw [hb] at this
        have := hk t0 hb
        simp only at *
        omega
    have hstep : ∀ t1, (s.fetchBlockTemplate env).server.blockTemplate = some t1 →
        t1.headers.length ≤ k + 1 := by
      intro t1 ht1
      rcases fetchBlockTemplate_cases s env with ⟨hsame, _⟩ | ⟨reply, pr, _, _, hnt, _⟩
      · rw [hsame] at ht1
        have := hk t1 ht1
        omega
      · rw [hnt] at ht1
        cases ht1
        exact hnew pr reply
    rcases h with h | h
    · rcases fetchBlockTemplate_cases s env with ⟨_, hno⟩ | ⟨reply, pr, _, _, _, hst⟩
      · exact absurd h (hno t)
      · rw [(hst t).mp h]
        have := hnew pr reply
        simp only [List.length_cons]
        omega
    · have := ih _ (k + 1) hstep t h
      simp only [List.length_cons]
      omega

/-- C10. When the work reply carries the header key of the published snapshot,
`fetchBlockTemplate` stores nothing and the snapshot stays current; the same holds
across two such refreshes in a row. -/
theorem fetchBlockTemplate_same_header_noop (s : ProxyServer) (t : BlockTemplate)
    (env env2 : RefreshEnv) (c c2 : CandidateResp)
    (ht : s.currentBlockTemplate = some t)
    (hw : env.work = WorkReply.candidate c) (hm : c.Msg = t.Header)
    (hw2 : env2.work = WorkReply.candidate c2) (hm2 : c2.Msg = t.Header) :
    (s.fetchBlockTemplate env).server.currentBlockTemplate = some t ∧
    (∀ x, Effect.store x ∉ (s.fetchBlockTemplate env).trace) ∧
    (s.refreshes [env, env2]).server.currentBlockTemplate = some t ∧
    (∀ x, Effect.store x ∉ (s.refreshes [env, env2]).trace) := by
  have step : ∀ (s1 : ProxyServer) (e : RefreshEnv) (k : CandidateResp),
      s1.blockTemplate = some t → e.work = WorkReply.candidate k → k.Msg = t.Header →
      (s1.fetchBlockTemplate e).server.blockTemplate = some t ∧
      ∀ x, Effect.store x ∉ (s1.fetchBlockTemplate e).trace := by
    intro s1 e k h1 h2 h3
    rcases fetchBlockTemplate_cases s1 e with ⟨hsame, hno⟩ | ⟨reply, _, hr, hne, _, _⟩
    · exact ⟨by rw [hsame, h1], hno⟩
    · rw [h2] at hr
      cases hr
      exact absurd h3.symm (hne t h1)
  obtain ⟨a1, a2⟩ := step s env c ht hw hm
  obtain ⟨b1, b2⟩ := step _ env2 c2 a1 hw2 hm2
  refine ⟨a1, a2, ?_, ?_⟩
  · simpa [ProxyServer.refreshes, ProxyServer.currentBlockTemplate] using b1
  · intro x hx
    simp only [ProxyServer.refreshes, List.append_nil, List.mem_append] at hx
    rcases hx with hx | hx
    · exact a2 x hx
    · exact b2 x hx

theorem rpc_setRpc (s : ProxyServer) (r0 r : RPCClient) (h : s.rpc = some r0) :
    (s.setRpc r).rpc = some r := by
  unfold ProxyServer.rpc at h ⊢
  unfold ProxyServer.setRpc
  by_cases h0 : 0 ≤ s.upstream
  · simp only [h0, if_true] at h ⊢
    have hlt : s.upstream.toNat < s.upstreams.length := by
      obtain ⟨hh, _⟩ := List.get?_eq_some.mp h
      exact hh
    simp [List.getElem?_set, hlt]
  · simp [h0] at h

theorem fetchPendingBlock_ok (s : ProxyServer) (info : InfoReply) (r : RPCClient)
    (w : CandidateResp) (tg : Int) (hr : s.rpc = some r) (htg : w.Target = some tg) :
    s.fetchPendingBlock info (WorkReply.candidate w) =
      { server := s.setRpc (r.GetInfo info).1
        trace := [Effect.getInfo, Effect.getWork]
        result := some ({ Number := info.headersHeight, Target := bigUint64 tg },
          info.headersHeight, info.difficulty) } := by
  unfold ProxyServer.fetchPendingBlock
  simp [hr, RPCClient.GetWork, htg, GetInfo_snd]

/-- A refresh whose replies all arrive and whose work reply carries a header key
other than the published one stores the template built from them. -/
theorem fetchBlockTemplate_publishes (s : ProxyServer) (env : RefreshEnv) (r : RPCClient)
    (w reply : CandidateResp) (tg : Int) (hr : s.rpc = some r)
    (hpw : env.pendingWork = WorkReply.candidate w) (htg : w.Target = some tg)
    (hw : env.work = WorkReply.candidate reply)
    (hne : ∀ t, s.blockTemplate = some t → t.Header ≠ reply.Msg) :
    s.fetchBlockTemplate env =
      { server :=
          { s.setRpc (r.GetInfo env.info).1 with
            blockTemplate := some (newTemplate s.Difficulty s.blockTemplate
              { Number := env.info.headersHeight, Target := bigUint64 tg }
              env.info.headersHeight env.info.difficulty reply) }
        trace := [Effect.fetchBlockTemplate, Effect.getInfo, Effect.getWork, Effect.getWork,
          Effect.store (newTemplate s.Difficulty s.blockTemplate
              { Number := env.info.headersHeight, Target := bigUint64 tg }
              env.info.headersHeight env.info.difficulty reply)]
        result := if reply.Msg.utf8ByteSize < 10 then none else some () } := by
  have hcmp : (match s.currentBlockTemplate with
      | some t => t.Header == reply.Msg
      | none => false) = false := by
    unfold ProxyServer.currentBlockTemplate
    cases hb : s.blockTemplate with
    | none => rfl
    | some t => simpa using hne t hb
  have hr2 := rpc_setRpc s r (r.GetInfo env.info).1 hr
  unfold ProxyServer.fetchBlockTemplate
  rw [hpw, fetchPendingBlock_ok s env.info r w tg hr htg, hw]
  simp only [hr, hr2, RPCClient.GetWork, hcmp]
  simp [ProxyServer.setRpc, ProxyServer.currentBlockTemplate]

theorem keyAt_ne {i j : Nat} (h : i ≠ j) : keyAt i ≠ keyAt j := by
  intro e
  have := congrArg String.length e
  simp [keyAt, String.length] at this
  exact h this

theorem utf8ByteSize_go_replicate (n : Nat) :
    String.utf8ByteSize.go (List.replicate n 'h') = n := by
  induction n with
  | zero => rfl
  | succ n ih =>
    simp only [List.replicate_succ, String.utf8ByteSize.go, ih]
    rfl

theorem keyAt_utf8ByteSize (i : Nat) : (keyAt i).utf8ByteSize = i + 10 := by
  simp only [keyAt, String.utf8ByteSize]
  exact utf8ByteSize_go_replicate (i + 10)

theorem mapSet_fresh (m : List (String × heightDiffPair)) (k : String) (v : heightDiffPair)
    (h : ∀ q ∈ m, q.1 ≠ k) : mapSet m k v = (k, v) :: m := by
  simp only [mapSet, List.cons.injEq, true_and]
  apply List.filter_eq_self.mpr
  intro q hq
  simpa using h q hq

theorem copyBacklog_fresh (old : List (String × heightDiffPair)) :
    ∀ (acc : List (String × heightDiffPair)) (height : Nat),
      (∀ p ∈ old, p.2.height > wrapUint64 ((height : Int) - (maxBacklog : Int))) →
      (old.map Prod.fst).Nodup →
      (∀ p ∈ old, ∀ q ∈ acc, q.1 ≠ p.1) →
      copyBacklog acc old height = old.reverse ++ acc := by
  induction old with
  | nil => intro acc height _ _ _; rfl
  | cons p old ih =>
    intro acc height hpass hnd hdis
    have hp := hpass p (by simp)
    simp only [List.map_cons, List.nodup_cons] at hnd
    have hstep : copyBacklog acc (p :: old) height
        = copyBacklog (mapSet acc p.1 p.2) old height := by
      simp only [copyBacklog, List.foldl_cons, hp, if_true]
    rw [hstep, mapSet_fresh acc p.1 p.2 (fun q hq => hdis p (by simp) q hq)]
    rw [ih (p :: acc) height (fun q hq => hpass q (List.mem_cons_of_mem _ hq)) hnd.2]
    · simp
    · intro p1 hp1 q hq
      rcases List.mem_cons.mp hq with rfl | hq
      · intro e
        exact hnd.1 (List.mem_map.mpr ⟨p1, hp1, e.symm⟩)
      · exact hdis p1 (List.mem_cons_of_mem _ hp1) q hq

theorem famInv_step (i : Nat) (s : ProxyServer) (h : FamInv i s) :
    (s.fetchBlockTemplate (sameHeightEnv i)).result = some () ∧
    FamInv (i + 1) (s.fetchBlockTemplate (sameHeightEnv i)).server ∧
    ∃ t, Effect.store t ∈ (s.fetchBlockTemplate (sameHeightEnv i)).trace ∧
      t.headers.length = i + 1 := by
  obtain ⟨⟨r, hr⟩, hb⟩ := h
  have hne : ∀ t, s.blockTemplate = some t → t.Header ≠ keyAt i := by
    intro t ht
    rw [ht] at hb
    obtain ⟨_, _, _, j, hj, hh⟩ := hb
    rw [hh]
    exact keyAt_ne (by omega)
  have hpub := fetchBlockTemplate_publishes s (sameHeightEnv i) r
    { Msg := keyAt i, Target := some 7, PK := "pk" }
    { Msg := keyAt i, Target := some 7, PK := "pk" } 7 hr rfl rfl rfl hne
  have hH : (sameHeightEnv i).info.headersHeight = 100 := by
    simp [sameHeightEnv, InfoReply.headersHeight]
  have hsz : ¬ (keyAt i).utf8ByteSize < 10 := by rw [keyAt_utf8ByteSize]; omega
  rw [hpub]
  simp only [hsz, if_false, hH, true_and]
  have hheaders : (newTemplate s.Difficulty s.blockTemplate
      { Number := 100, Target := (bigUint64 7 : Nat) } 100 (sameHeightEnv i).info.difficulty
      { Msg := keyAt i, Target := some 7, PK := "pk" }).headers
      = (match s.blockTemplate with
          | none => []
          | some t => t.headers.reverse) ++ [(keyAt i, { diff := some 7, height := 100 })] := by
    cases hs : s.blockTemplate with
    | none => simp [newTemplate, mapSet]
    | some t =>
      rw [hs] at hb
      obtain ⟨_, hnd, hall, _⟩ := hb
      simp only [newTemplate, mapSet, List.filter_nil]
      apply copyBacklog_fresh
      · intro p hp
        rw [(hall p hp).1]
        decide
      · exact hnd
      · intro p hp q hq
        simp only [List.mem_singleton] at hq
        subst hq
        obtain ⟨_, j, hj, hk⟩ := hall p hp
        rw [hk]
        exact keyAt_ne (by omega)
  refine ⟨⟨⟨_, rpc_setRpc s r _ hr⟩, ?_⟩, newTemplate s.Difficulty s.blockTemplate
        { Number := 100, Target := (bigUint64 7 : Nat) } 100 (sameHeightEnv i).info.difficulty
        { Msg := keyAt i, Target := some 7, PK := "pk" }, by simp, ?_⟩
  · show (match some (newTemplate s.Difficulty s.blockTemplate
        { Number := 100, Target := (bigUint64 7 : Nat) } 100 (sameHeightEnv i).info.difficulty
        { Msg := keyAt i, Target := some 7, PK := "pk" }) with
      | none => i + 1 = 0
      | some t =>
        t.headers.length = i + 1 ∧ (t.headers.map Prod.fst).Nodup ∧
        (∀ p ∈ t.headers, p.2.height = 100 ∧ ∃ j, j < i + 1 ∧ p.1 = keyAt j) ∧
        ∃ j, j < i + 1 ∧ t.Header = keyAt j)
    simp only [hheaders]
    cases hs : s.blockTemplate with
    | none =>
      rw [hs] at hb
      subst hb
      simp [newTemplate]
    | some t =>
      rw [hs] at hb
      obtain ⟨hlen, hnd, hall, _⟩ := hb
      refine ⟨by simp [hlen], ?_, ?_, i, by omega, by simp [newTemplate]⟩
      · simp only [List.map_append, List.map_reverse, List.map_cons, List.map_nil]
        rw [List.nodup_append]
        refine ⟨List.nodup_reverse.mpr hnd, by simp, ?_⟩
        intro a ha hb2
        simp only [List.mem_singleton] at hb2
        subst hb2
        simp only [List.mem_reverse, List.mem_map] at ha
        obtain ⟨p, hp, hpk⟩ := ha
        obtain ⟨_, j, hj, hk⟩ := hall p hp
        rw [hk] at hpk
        exact keyAt_ne (show j ≠ i by omega) hpk
      · intro p hp
        simp only [List.mem_append, List.mem_reverse, List.mem_singleton] at hp
        rcases hp with hp | rfl
        · obtain ⟨h100, j, hj, hk⟩ := hall p hp
          exact ⟨h100, j, by omega, hk⟩
        · exact ⟨rfl, i, by omega, rfl⟩
  · rw [hheaders]
    cases hs : s.blockTemplate with
    | none => rw [hs] at hb; subst hb; simp
    | some t => rw [hs] at hb; simp [hb.1]

theorem famInv_refreshes (n : Nat) :
    ∀ (i : Nat) (s : ProxyServer), FamInv i s →
      (s.refreshes (sameHeightEnvs i n)).result = some () ∧
      FamInv (i + n) (s.refreshes (sameHeightEnvs i n)).server ∧
      (0 < n → ∃ t, Effect.store t ∈ (s.refreshes (sameHeightEnvs i n)).trace ∧
        t.headers.length = i + n) := by
  induction n with
  | zero => intro i s h; exact ⟨rfl, h, fun h0 => absurd h0 (by omega)⟩
  | succ n ih =>
    intro i s h
    obtain ⟨hres, hinv, t, ht, hlen⟩ := famInv_step i s h
    obtain ⟨hres2, hinv2, hex⟩ := ih (i + 1) _ hinv
    have e : i + 1 + n = i + (n + 1) := by omega
    rw [e] at hinv2 hex
    refine ⟨?_, hinv2, ?_⟩
    · simp only [sameHeightEnvs, ProxyServer.refreshes, hres, hres2]
    · intro _
      rcases Nat.eq_zero_or_pos n with rfl | hn
      · exact ⟨t, by simp [sameHeightEnvs, ProxyServer.refreshes, ht], hlen⟩
      · obtain ⟨t2, ht2, hlen2⟩ := hex hn
        exact ⟨t2, by simp [sameHeightEnvs, ProxyServer.refreshes, ht2], hlen2⟩

/-- C8 (as stated, refuted). No constant bounds the backlog of published snapshots:
`B + 1` refreshes announcing distinct header keys at one chain height all return
normally and publish a snapshot with `B + 1` backlog entries. -/
theorem backlog_length_unbounded :
    ¬ ∃ B : Nat, ∀ (envs : List RefreshEnv) (t : BlockTemplate),
        (server0.refreshes envs).result = some () →
        Effect.store t ∈ (server0.refreshes envs).trace → t.headers.length ≤ B := by
  rintro ⟨B, hB⟩
  have h0 : FamInv 0 server0 := ⟨⟨nodeA, rfl⟩, rfl⟩
  obtain ⟨hres, _, hex⟩ := famInv_refreshes (B + 1) 0 server0 h0
  obtain ⟨t, ht, hlen⟩ := hex (by omega)
  have := hB _ t hres ht
  omega

/-! ## theorems: share pipeline (C5, C6, C7) -/

/-- The stale branch of `processShare` taken by itself: for a template value whose
backlog lacks the template's own `Header`, the function returns `(false, false)` with
an empty trace. No published snapshot is such a value
(`published_backlog_has_own_key`), so no run takes this branch. -/
theorem processShare_missing_key_branch (s : ProxyServer) (login id ip : String) (t : BlockTemplate)
    (params : SolutionReq) (env : ShareEnv) (h : mapGet t.headers t.Header = none) :
    s.processShare login id ip (some t) params env
      = { server := s, trace := [], result := some (false, false) } := by
  simp [ProxyServer.processShare, h]

theorem fetchPendingBlock_trace (s : ProxyServer) (info : InfoReply) (work : WorkReply) :
    ∀ e ∈ (s.fetchPendingBlock info work).trace, e = Effect.getInfo ∨ e = Effect.getWork := by
  unfold ProxyServer.fetchPendingBlock
  split
  · simp
  · simp only []
    split
    · simp
    · split <;> simp

theorem fetchBlockTemplate_trace_no_write (s : ProxyServer) (env : RefreshEnv) :
    ∀ e ∈ (s.fetchBlockTemplate env).trace,
      e.isWriteShare = false ∧ e.isWriteBlock = false := by
  have hp := fetchPendingBlock_trace s env.info env.pendingWork
  have hp2 : ∀ e ∈ (s.fetchPendingBlock env.info env.pendingWork).trace,
      e.isWriteShare = false ∧ e.isWriteBlock = false := by
    intro e he
    rcases hp e he with rfl | rfl <;> exact ⟨rfl, rfl⟩
  intro e he
  unfold ProxyServer.fetchBlockTemplate at he
  split at he
  · simp only [List.mem_singleton] at he
    subst he
    exact ⟨rfl, rfl⟩
  · simp only [] at he
    have key : ∀ (l : List Effect), (∀ x ∈ l, x.isWriteShare = false ∧ x.isWriteBlock = false) →
        e ∈ l → e.isWriteShare = false ∧ e.isWriteBlock = false := fun l hl h => hl e h
    have hbase : ∀ x ∈ Effect.fetchBlockTemplate ::
        ((s.fetchPendingBlock env.info env.pendingWork).trace ++ [Effect.getWork]),
        x.isWriteShare = false ∧ x.isWriteBlock = false := by
      intro x hx
      simp only [List.mem_cons, List.mem_append, List.mem_singleton, List.not_mem_nil,
        or_false] at hx
      rcases hx with rfl | hx | rfl
      · exact ⟨rfl, rfl⟩
      · exact hp2 x hx
      · exact ⟨rfl, rfl⟩
    have hshort : ∀ x ∈ Effect.fetchBlockTemplate ::
        (s.fetchPendingBlock env.info env.pendingWork).trace,
        x.isWriteShare = false ∧ x.isWriteBlock = false := by
      intro x hx
      rcases List.mem_cons.mp hx with rfl | hx
      · exact ⟨rfl, rfl⟩
      · exact hp2 x hx
    split at he
    · exact key _ hshort he
    · split at he
      · exact key _ hshort he
      · split at he
        · exact key _ hbase he
        · split at he
          · exact key _ hbase he
          · split at he
            · exact key _ hbase he
            · simp only [List.mem_append, List.mem_singleton] at he
              rcases he with he | rfl
              · exact key _ hbase he
              · exact ⟨rfl, rfl⟩

theorem filter_isWriteShare_none (l : List Effect)
    (h : ∀ e ∈ l, e.isWriteShare = false ∧ e.isWriteBlock = false) :
    l.filter Effect.isWriteShare = [] ∧ l.filter Effect.isWriteBlock = [] := by
  constructor
  · apply List.filter_eq_nil_iff.mpr
    intro e he; simp [(h e he).1]
  · apply List.filter_eq_nil_iff.mpr
    intro e he; simp [(h e he).2]

/-- The part of C6 that the code keeps: for a snapshot whose backlog holds the
looked-up header with entry `h`, and for every reply of the node to the submission,
provided the refresh triggered on acceptance returns normally and `h.diff` is not
nil, `processShare` returns `(false, true)`, calls `WriteShare` exactly once with
`(login, id, params, share difficulty, h.height, hashrateExpiration)`, and calls
`WriteBlock` exactly when the node accepted. -/
theorem processShare_records_share (s : ProxyServer) (login id ip : String) (t : BlockTemplate)
    (params : SolutionReq) (env : ShareEnv) (h : heightDiffPair) (r : RPCClient)
    (hget : mapGet t.headers t.Header = some h) (hr : s.rpc = some r)
    (hok : (r.SubmitSolution env.post).2.1 = true →
      ((s.setRpc (r.SubmitSolution env.post).1).fetchBlockTemplate env.refresh).result = some ()
        ∧ h.diff ≠ none) :
    (s.processShare login id ip (some t) params env).result = some (false, true) ∧
    (s.processShare login id ip (some t) params env).trace.filter Effect.isWriteShare
      = [Effect.writeShare login id params s.Difficulty h.height s.hashrateExpiration] ∧
    ((s.processShare login id ip (some t) params env).trace.filter Effect.isWriteBlock ≠ []
      ↔ (r.SubmitSolution env.post).2.1 = true) := by
  have hnw := fetchBlockTemplate_trace_no_write
    (s.setRpc (r.SubmitSolution env.post).1) env.refresh
  obtain ⟨hf1, hf2⟩ := filter_isWriteShare_none _ hnw
  unfold ProxyServer.processShare
  simp only [hget, hr]
  by_cases herr : (r.SubmitSolution env.post).2.2 = true
  · have hnot : (r.SubmitSolution env.post).2.1 = false := by
      unfold RPCClient.SubmitSolution at herr ⊢
      by_cases hp : (r.doPost env.post).2 = true
      · simp [hp]
      · simp [hp] at herr
    simp [herr, hnot, Effect.isWriteShare, Effect.isWriteBlock]
  · have hyes : (r.SubmitSolution env.post).2.1 = true := by
      unfold RPCClient.SubmitSolution at herr ⊢
      by_cases hp : (r.doPost env.post).2 = true
      · simp [hp] at herr
      · simp [hp]
    obtain ⟨hres, hd⟩ := hok hyes
    obtain ⟨d, hd⟩ := Option.ne_none_iff_exists'.mp hd
    simp [herr, hyes, hres, hd, hf1, hf2, Effect.isWriteShare, Effect.isWriteBlock,
      List.filter_cons]

/-- C1, at the second of two refreshes (heights 500 and 501). -/
theorem published_backlog_in_window_witness :
    Effect.store template501 ∈ (server0.refreshes [envH500, envH501]).trace ∧
    ∀ p ∈ template501.headers,
      (p.2.height : Int) > (template501.Height : Int) - (maxBacklog : Int) :=
  ⟨by decide, published_backlog_in_window server0 [envH500, envH501] template501 (by decide)⟩

/-- C10, at snapshot `H` with the node announcing `H` twice more. -/
theorem fetchBlockTemplate_same_header_noop_witness :
    server500.currentBlockTemplate = some template500 ∧
    envH500.work = WorkReply.candidate { Msg := headerH, Target := some 12345, PK := "pk-1" } ∧
    (server500.fetchBlockTemplate envH500).server.currentBlockTemplate = some template500 ∧
    (∀ x, Effect.store x ∉ (server500.fetchBlockTemplate envH500).trace) ∧
    (server500.refreshes [envH500, envH500]).server.currentBlockTemplate = some template500 ∧
    (∀ x, Effect.store x ∉ (server500.refreshes [envH500, envH500]).trace) :=
  ⟨by decide, rfl,
    fetchBlockTemplate_same_header_noop server500 template500 envH500 envH500
      { Msg := headerH, Target := some 12345, PK := "pk-1" }
      { Msg := headerH, Target := some 12345, PK := "pk-1" } (by decide) rfl rfl rfl rfl⟩

/-- C4, at the list `[A, B, C]` with only `C` answering its probe. -/
theorem checkUpstreams_selects_first_healthy_witness :
    server0.upstreams ≠ [] ∧ server0.upstreams.length ≤ 2147483648 ∧
    (server0.checkUpstreams worksOnlyC).result = some () ∧
    (∀ k, (probeResults worksOnlyC 0 server0.upstreams).get? k = some true →
      (∀ j, j < k → (probeResults worksOnlyC 0 server0.upstreams).get? j = some false) →
      (server0.checkUpstreams worksOnlyC).server.upstream = (k : Int)) ∧
    ((∀ x ∈ probeResults worksOnlyC 0 server0.upstreams, x = false) →
      (server0.checkUpstreams worksOnlyC).server.upstream = 0) ∧
    (server0.checkUpstreams worksOnlyC).trace =
      (List.range server0.upstreams.length).map Effect.probe ++
        (if server0.upstream = (server0.checkUpstreams worksOnlyC).server.upstream then []
         else [Effect.storeUpstream (server0.checkUpstreams worksOnlyC).server.upstream]) :=
  ⟨by decide, by decide,
    checkUpstreams_selects_first_healthy server0 worksOnlyC (by decide) (by decide)⟩

/-- The two selections of the specification's scenario: with `A` and `C` healthy and
`B` not, index 0 (`A`) stays selected and nothing is stored; with only `C` healthy,
index 2 (`C`) is stored. -/
theorem checkUpstreams_scenario :
    probeResults worksAC 0 server0.upstreams = [true, false, true] ∧
    (server0.checkUpstreams worksAC).server.upstream = 0 ∧
    (server0.checkUpstreams worksAC).trace = [Effect.probe 0, Effect.probe 1, Effect.probe 2] ∧
    probeResults worksOnlyC 0 server0.upstreams = [false, false, true] ∧
    (server0.checkUpstreams worksOnlyC).server.upstream = 2 ∧
    (server0.checkUpstreams worksOnlyC).trace =
      [Effect.probe 0, Effect.probe 1, Effect.probe 2, Effect.storeUpstream 2] := by
  decide

/-- C6 (the code at the failing input). The snapshot `H` at height 500 is published
and holds its own header in the backlog; the node accepts the solution; the
candidate fetch of the refresh triggered by the acceptance fails in transport.
`processShare` then ends in the nil dereference of `fetchPendingBlock`: it returns
nothing and neither `WriteShare` nor `WriteBlock` is called. -/
theorem processShare_accepted_refresh_panics :
    server500.currentBlockTemplate = some template500 ∧
    mapGet template500.headers template500.Header = some { diff := some 12345, height := 500 } ∧
    (server500.processShare "miner" "rig1" "10.0.0.7" server500.currentBlockTemplate solution
        envAcceptedFetchFails).result = none ∧
    (server500.processShare "miner" "rig1" "10.0.0.7" server500.currentBlockTemplate solution
        envAcceptedFetchFails).trace
      = [Effect.submitSolution solution, Effect.fetchBlockTemplate, Effect.getInfo,
          Effect.getWork] := by
  decide

/-- C7 (the code at the failing input). The snapshot published from node info
(height 500, difficulty 7777) and candidate (`H`, target 12345) has header `H`,
height 500 and difficulty 7777; on acceptance `processShare` refreshes, then calls
`WriteBlock` once, with height 500 and header `H` but with 12345, the candidate's
target, in the place of the network difficulty, then `WriteShare`, and returns
`(false, true)`. -/
theorem writeBlock_carries_target_not_difficulty :
    server0.blockTemplate = none ∧
    (server0.fetchBlockTemplate envH500).server.currentBlockTemplate = some template500 ∧
    template500.Header = headerH ∧ template500.Height = 500 ∧ template500.Difficulty = 7777 ∧
    (server500.processShare "miner" "rig1" "10.0.0.7" server500.currentBlockTemplate solution
        envAccepted).result = some (false, true) ∧
    (server500.processShare "miner" "rig1" "10.0.0.7" server500.currentBlockTemplate solution
        envAccepted).trace
      = [Effect.submitSolution solution, Effect.fetchBlockTemplate, Effect.getInfo,
          Effect.getWork, Effect.getWork, Effect.store template501,
          Effect.writeBlock "miner" "rig1" solution 1000 12345 500 10800000000000 headerH,
          Effect.writeShare "miner" "rig1" solution 1000 500 10800000000000] := by
  decide

/-- C9 (the code at the failing inputs). With snapshot `H` (height 500) current: when
the info fetch fails in transport and the candidate fetches answer `H2`, the refresh
returns normally and publishes a snapshot of height 0 and difficulty 0; when the
candidate fetch inside `fetchPendingBlock` fails in transport, the refresh ends in
a nil dereference instead of returning. -/
theorem fetchBlockTemplate_node_failure :
    server500.currentBlockTemplate = some template500 ∧
    (server500.fetchBlockTemplate envInfoFails).result = some () ∧
    (server500.fetchBlockTemplate envInfoFails).server.currentBlockTemplate
      = some { Header := headerH2, Seed := "pk-1", Target := "12000", Difficulty := 0,
               Height := 0, GetPendingBlockCache := { Number := 0, Target := 1000 },
               headers := [(headerH2, { diff := some 12000, height := 0 })] } ∧
    (server500.fetchBlockTemplate envWorkFails).result = none ∧
    (server500.fetchBlockTemplate envWorkFails).trace
      = [Effect.fetchBlockTemplate, Effect.getInfo, Effect.getWork] := by
  decide

/-- The part of C9 that the code keeps: when the candidate fetch made by
`fetchBlockTemplate` itself fails, nothing is stored and the published snapshot
stays current. -/
theorem fetchBlockTemplate_work_error_keeps_snapshot (s : ProxyServer) (env : RefreshEnv)
    (hw : env.work = WorkReply.error) :
    (s.fetchBlockTemplate env).server.currentBlockTemplate = s.currentBlockTemplate ∧
    ∀ x, Effect.store x ∉ (s.fetchBlockTemplate env).trace := by
  rcases fetchBlockTemplate_cases s env with h | ⟨reply, _, hr, _⟩
  · exact h
  · rw [hw] at hr
    cases hr

/-- A refresh whose pending-block fetch got its replies and whose candidate fetch
failed or returned the published header key returns normally. -/
theorem fetchBlockTemplate_returns (s : ProxyServer) (env : RefreshEnv) (r : RPCClient)
    (w : CandidateResp) (tg : Int) (hr : s.rpc = some r)
    (hpw : env.pendingWork = WorkReply.candidate w) (htg : w.Target = some tg)
    (hw : env.work = WorkReply.error ∨
      ∃ c t, env.work = WorkReply.candidate c ∧ s.blockTemplate = some t ∧ c.Msg = t.Header) :
    (s.fetchBlockTemplate env).result = some () := by
  have hr2 := rpc_setRpc s r (r.GetInfo env.info).1 hr
  unfold ProxyServer.fetchBlockTemplate
  rw [hpw, fetchPendingBlock_ok s env.info r w tg hr htg]
  rcases hw with hw | ⟨c, t, hw, ht, hm⟩
  · simp [hr, hr2, hw, RPCClient.GetWork]
  · simp [hr, hr2, hw, RPCClient.GetWork, ProxyServer.currentBlockTemplate, ht, hm]


/-! ## theorems: own backlog entry (C11) -/

theorem mapGet_mapSet_self (m : List (String × heightDiffPair)) (k : String)
    (v : heightDiffPair) : mapGet (mapSet m k v) k = some v := by
  simp [mapGet, mapSet]

theorem find_filter_ne (m : List (String × heightDiffPair)) (k k1 : String) (h : k1 ≠ k) :
    (m.filter (fun p => p.1 != k1)).find? (fun p => p.1 == k)
      = m.find? (fun p => p.1 == k) := by
  induction m with
  | nil => rfl
  | cons q m ih =>
    by_cases hq : q.1 = k1
    · have hb : (k1 == k) = false := by simpa using h
      simp [List.filter_cons, List.find?_cons, hq, ih, hb]
    · by_cases hqk : q.1 = k
      · have hkk : ¬ k = k1 := fun e => hq (hqk.trans e)
        simp [List.filter_cons, List.find?_cons, hqk, hkk]
      · simp [List.filter_cons, List.find?_cons, hq, hqk, ih]

theorem mapGet_mapSet_ne (m : List (String × heightDiffPair)) (k k1 : String)
    (v : heightDiffPair) (h : k1 ≠ k) : mapGet (mapSet m k1 v) k = mapGet m k := by
  simp only [mapGet, mapSet, List.find?_cons]
  have : ((k1, v).1 == k) = false := by simpa using h
  rw [this, find_filter_ne m k k1 h]

theorem mapGet_copyBacklog_isSome (old : List (String × heightDiffPair)) :
    ∀ (acc : List (String × heightDiffPair)) (height : Nat) (k : String),
      (mapGet acc k).isSome = true → (mapGet (copyBacklog acc old height) k).isSome = true := by
  induction old with
  | nil => intro acc height k h; exact h
  | cons q old ih =>
    intro acc height k h
    simp only [copyBacklog, List.foldl_cons]
    by_cases hq : q.2.height > wrapUint64 ((height : Int) - (maxBacklog : Int))
    · simp only [hq, if_true]
      apply ih
      by_cases hk : q.1 = k
      · rw [← hk, mapGet_mapSet_self]; rfl
      · rw [mapGet_mapSet_ne _ _ _ _ hk]; exact h
    · simp only [hq, if_false]
      exact ih acc height k h

theorem mapGet_copyBacklog_fresh (old : List (String × heightDiffPair)) :
    ∀ (acc : List (String × heightDiffPair)) (height : Nat) (k : String),
      (∀ p ∈ old, p.1 = k → ¬ p.2.height > wrapUint64 ((height : Int) - (maxBacklog : Int))) →
      mapGet (copyBacklog acc old height) k = mapGet acc k := by
  induction old with
  | nil => intro acc height k _; rfl
  | cons q old ih =>
    intro acc height k h
    simp only [copyBacklog, List.foldl_cons]
    have hrest : ∀ p ∈ old, p.1 = k →
        ¬ p.2.height > wrapUint64 ((height : Int) - (maxBacklog : Int)) :=
      fun p hp => h p (List.mem_cons_of_mem _ hp)
    by_cases hq : q.2.height > wrapUint64 ((height : Int) - (maxBacklog : Int))
    · simp only [hq, if_true]
      have hk : q.1 ≠ k := fun e => h q (by simp) e hq
      have := ih (mapSet acc q.1 q.2) height k hrest
      simp only [copyBacklog] at this
      rw [this, mapGet_mapSet_ne _ _ _ _ hk]
    · simp only [hq, if_false]
      exact ih acc height k hrest

theorem newTemplate_has_own_key (d : Int) (t : Option BlockTemplate) (pr : GetBlockReplyPart)
    (height diff : Nat) (reply : CandidateResp) :
    (mapGet (newTemplate d t pr height diff reply).headers
      (newTemplate d t pr height diff reply).Header).isSome = true := by
  cases t with
  | none => simp [newTemplate, mapSet, mapGet]
  | some t =>
    simp only [newTemplate]
    apply mapGet_copyBacklog_isSome
    rw [mapGet_mapSet_self]; rfl

/-- The part of C11 that the code keeps: every snapshot published in a sequence of
refreshes holds an entry under its own `Header` key. -/
theorem published_backlog_has_own_key (s : ProxyServer) (envs : List RefreshEnv)
    (t : BlockTemplate) (hpub : Effect.store t ∈ (s.refreshes envs).trace) :
    ∃ h, mapGet t.headers t.Header = some h := by
  obtain ⟨s1, env, h⟩ := refreshes_store envs s t hpub
  rcases fetchBlockTemplate_cases s1 env with ⟨_, hno⟩ | ⟨reply, pr, _, _, _, hst⟩
  · exact absurd h (hno t)
  · rw [(hst t).mp h]
    exact Option.isSome_iff_exists.mp (newTemplate_has_own_key _ _ _ _ _ _)

/-- The part of C11 that the code keeps: when the previous backlog holds no entry
under the new header key that is still inside the window, the entry under the own
key is the one built for the new snapshot, with the snapshot's height. -/
theorem newTemplate_own_entry_of_fresh_key (d : Int) (t : Option BlockTemplate)
    (pr : GetBlockReplyPart) (height diff : Nat) (reply : CandidateResp)
    (hfresh : ∀ t0, t = some t0 → ∀ p ∈ t0.headers, p.1 = reply.Msg →
      ¬ p.2.height > wrapUint64 ((height : Int) - (maxBacklog : Int))) :
    mapGet (newTemplate d t pr height diff reply).headers
        (newTemplate d t pr height diff reply).Header
      = some { diff := reply.Target, height := (newTemplate d t pr height diff reply).Height } := by
  cases t with
  | none => simp [newTemplate, mapSet, mapGet]
  | some t0 =>
    simp only [newTemplate]
    rw [mapGet_copyBacklog_fresh t0.headers _ height reply.Msg (hfresh t0 rfl),
      mapGet_mapSet_self]

/-- C11 (the code at the failing input). The node announces `H` at height 500, `H2` at
501 and `H` again at 502; all three refreshes return normally. The snapshot published
by the third has header `H` and height 502, and the entry under `H` in its backlog is
the one of height 500 copied from the previous backlog over the new one. -/
theorem own_entry_overwritten_by_old :
    (server0.refreshes [envH500, envH501, envH502]).result = some () ∧
    (server0.refreshes [envH500, envH501, envH502]).server.currentBlockTemplate
      = some template502 ∧
    Effect.store template502 ∈ (server0.refreshes [envH500, envH501, envH502]).trace ∧
    template502.Header = headerH ∧ template502.Height = 502 ∧
    mapGet template502.headers template502.Header
      = some { diff := some 12345, height := 500 } := by
  decide


/-! ## theorems: gateway-facing operations (C12, C13, C14) -/

theorem utf8ByteSize_ne_zero (s : String) (h : s ≠ "") : s.utf8ByteSize ≠ 0 := by
  obtain ⟨cs⟩ := s
  cases cs with
  | nil => exact absurd rfl h
  | cons c cs =>
    simp only [String.utf8ByteSize, String.utf8ByteSize.go]
    have := Char.utf8Size_pos c
    omega

theorem wrapUint64_of_small (d : Int) (h0 : 0 ≤ d) (h1 : d < 18446744073709551616) :
    wrapUint64 d = d.toNat := by
  unfold wrapUint64
  rw [Int.emod_eq_of_lt h0 h1]

/-- C12. For a configured share difficulty `d` with `1 <= d` (and `d` an `int64`), a
current snapshot with a non-empty header and a proxy that is not sick,
`handleGetWorkRPC` returns no error and the map with `msg` the snapshot's header,
`pk` its seed and `b` the decimal rendering of `floor((2^256 - 1) / d)`, an
expression of `d` alone. -/
theorem handleGetWorkRPC_target (s : ProxyServer) (cs : Session) (t : BlockTemplate)
    (hd1 : 1 ≤ s.Difficulty) (hd2 : s.Difficulty < 9223372036854775808)
    (ht : s.currentBlockTemplate = some t) (hne : t.Header ≠ "") (hs : s.isSick = false) :
    s.handleGetWorkRPC cs
      = some (some [("msg", t.Header),
                    ("b", Nat.repr ((2 ^ 256 - 1) / s.Difficulty.toNat)),
                    ("pk", t.Seed)], none) := by
  have hw : wrapUint64 s.Difficulty = s.Difficulty.toNat :=
    wrapUint64_of_small _ (by omega) (by omega)
  have hpos : s.Difficulty.toNat ≠ 0 := by omega
  have hlen := utf8ByteSize_ne_zero t.Header hne
  unfold ProxyServer.handleGetWorkRPC
  rw [ht]
  simp only [hs, hw, hpos, if_false, Bool.or_false, beq_iff_eq, hlen]
  rfl

/-- C12, at the snapshot `H` with share difficulty 1000. -/
theorem handleGetWorkRPC_target_witness :
    1 ≤ server500.Difficulty ∧ server500.Difficulty < 9223372036854775808 ∧
    server500.currentBlockTemplate = some template500 ∧ template500.Header ≠ "" ∧
    server500.isSick = false ∧
    server500.handleGetWorkRPC minerSession
      = some (some [("msg", template500.Header),
                    ("b", Nat.repr ((2 ^ 256 - 1) / server500.Difficulty.toNat)),
                    ("pk", template500.Seed)], none) :=
  ⟨by decide, by decide, by decide, by decide, by decide,
    handleGetWorkRPC_target server500 minerSession template500 (by decide) (by decide)
      (by decide) (by decide) (by decide)⟩

/-- The value of `b` for share difficulty 1000, whatever the snapshot's network
difficulty (7777) and the node's target (12345). -/
theorem handleGetWorkRPC_example :
    server500.handleGetWorkRPC minerSession = some (some [("msg", headerH),
      ("b", "115792089237316195423570985008687907853269984665640564039457584007913129639"),
      ("pk", "pk-1")], none) := by
  decide

/-- The invalid-share branch of `handleSubmitRPC` taken by itself: were `processShare`
to return `(false, false)`, the handler would pass `false` to `ApplySharePolicy` and
return validity false, with the `ErrorReply` of code 23 when the policy answers false
and a nil error when it answers true. On published snapshots `processShare` never
returns `(false, false)` (`processShare_never_stale`), so no run takes this branch. -/
theorem handleSubmitRPC_invalid_branch (s : ProxyServer) (cs : Session) (login id : String)
    (p : SolutionReq) (env : SubmitEnv)
    (hst : (s.processShare login (workerId id) cs.ip s.currentBlockTemplate p env.share).result
      = some (false, false)) :
    (s.handleSubmitRPC cs login id (some p) env).result
      = some (false, if env.sharePolicy then none
                     else some { Code := 23, Message := "Invalid share" }) ∧
    (s.handleSubmitRPC cs login id (some p) env).trace
      = (s.processShare login (workerId id) cs.ip s.currentBlockTemplate p env.share).trace
          ++ [Effect.applySharePolicy cs.ip false] := by
  unfold ProxyServer.handleSubmitRPC
  simp only [hst]
  cases env.sharePolicy <;> simp

/-- C14 (the code at the failing input). The first refresh gets its pending-block
replies but its own candidate fetch fails, so it returns normally and publishes
nothing; `currentBlockTemplate` is nil. A submission with non-nil params then ends in
the nil dereference of `t.Header` in `processShare`: `handleSubmitRPC` returns no
pair and makes no call. -/
theorem handleSubmitRPC_without_snapshot_panics :
    server0.currentBlockTemplate = none ∧
    (server0.fetchBlockTemplate envSecondWorkFails).result = some () ∧
    serverNoSnapshot.currentBlockTemplate = none ∧
    (serverNoSnapshot.handleSubmitRPC minerSession "miner" "rig1" (some solution)
        envPolicyAllows).result = none ∧
    (serverNoSnapshot.handleSubmitRPC minerSession "miner" "rig1" (some solution)
        envPolicyAllows).trace = [] ∧
    (server0.handleSubmitRPC minerSession "miner" "rig1" (some solution)
        envPolicyAllows).result = none := by
  decide

/-- The part of C14 that the code keeps: whenever `processShare` returns,
`handleSubmitRPC` returns a pair, and for nil params it returns
`(false, Invalid params)` without looking at the snapshot. -/
theorem handleSubmitRPC_returns (s : ProxyServer) (cs : Session) (login id : String)
    (env : SubmitEnv) :
    (s.handleSubmitRPC cs login id none env).result
      = some (false, some { Code := -1, Message := "Invalid params" }) ∧
    ∀ p res,
      (s.processShare login (workerId id) cs.ip s.currentBlockTemplate p env.share).result
        = some res →
      ∃ out, (s.handleSubmitRPC cs login id (some p) env).result = some out := by
  refine ⟨rfl, ?_⟩
  intro p res hres
  unfold ProxyServer.handleSubmitRPC
  simp only [hres]
  split
  · exact ⟨_, rfl⟩
  · split
    · split <;> exact ⟨_, rfl⟩
    · split <;> exact ⟨_, rfl⟩


/-! ## theorems: size of the backlog (C8) -/

theorem keys_mapSet_nodup (m : List (String × heightDiffPair)) (k : String)
    (v : heightDiffPair) (h : (m.map Prod.fst).Nodup) :
    ((mapSet m k v).map Prod.fst).Nodup := by
  simp only [mapSet, List.map_cons, List.nodup_cons]
  constructor
  · intro hk
    obtain ⟨p, hp, hpk⟩ := List.mem_map.mp hk
    have := (List.mem_filter.mp hp).2
    simp only [bne_iff_ne, ne_eq] at this
    exact this hpk
  · exact h.sublist ((List.filter_sublist m).map Prod.fst)

theorem keys_copyBacklog_nodup (old : List (String × heightDiffPair)) :
    ∀ (acc : List (String × heightDiffPair)) (height : Nat),
      (acc.map Prod.fst).Nodup → ((copyBacklog acc old height).map Prod.fst).Nodup := by
  induction old with
  | nil => intro acc height h; exact h
  | cons q old ih =>
    intro acc height h
    simp only [copyBacklog, List.foldl_cons]
    by_cases hq : q.2.height > wrapUint64 ((height : Int) - (maxBacklog : Int))
    · simp only [hq, if_true]
      exact ih _ height (keys_mapSet_nodup acc q.1 q.2 h)
    · simp only [hq, if_false]
      exact ih acc height h

theorem newTemplate_backlogFrom (all : List RefreshEnv) (d : Int) (t : Option BlockTemplate)
    (pr : GetBlockReplyPart) (diff : Nat) (reply : CandidateResp) (env : RefreshEnv)
    (henv : env ∈ all) (hkey : env.announcedKey = some reply.Msg)
    (hold : ∀ t0, t = some t0 → BacklogFrom all t0 ∧ t0.Height ≤ env.info.headersHeight) :
    BacklogFrom all (newTemplate d t pr env.info.headersHeight diff reply) := by
  have hnewkeys : ((mapSet [] reply.Msg
      { diff := reply.Target, height := env.info.headersHeight }).map Prod.fst).Nodup := by
    simp [mapSet]
  have hnew : ∀ p ∈ mapSet [] reply.Msg
      { diff := reply.Target, height := env.info.headersHeight },
      p.2.height ≤ env.info.headersHeight ∧
      (p.2.height : Int) > (env.info.headersHeight : Int) - (maxBacklog : Int) ∧
      ∃ e ∈ all, e.announcedKey = some p.1 ∧ e.info.headersHeight = p.2.height := by
    intro p hp
    rcases mem_mapSet hp with h | h
    · subst h
      exact ⟨Nat.le_refl _, by simp [maxBacklog], env, henv, hkey, rfl⟩
    · cases h
  cases t with
  | none => exact ⟨hnewkeys, hnew⟩
  | some t0 =>
    obtain ⟨⟨_, hall⟩, hle⟩ := hold t0 rfl
    refine ⟨keys_copyBacklog_nodup _ _ _ hnewkeys, ?_⟩
    intro p hp
    simp only [newTemplate] at hp ⊢
    rcases mem_copyBacklog _ _ _ _ hp with h | ⟨hin, hpass⟩
    · exact hnew p h
    · obtain ⟨h1, _, h3⟩ := hall p hin
      have := wrapUint64_sub_ge env.info.headersHeight (headersHeight_lt env.info)
      exact ⟨by omega, by omega, h3⟩

theorem refreshes_backlogFrom (all rest : List RefreshEnv) :
    ∀ (s : ProxyServer), (∀ e ∈ rest, e ∈ all) →
      (rest.map (fun e => e.info.headersHeight)).Pairwise (fun x y => x ≤ y) →
      (∀ t0, s.blockTemplate = some t0 →
        BacklogFrom all t0 ∧ ∀ e ∈ rest, t0.Height ≤ e.info.headersHeight) →
      ∀ t, Effect.store t ∈ (s.refreshes rest).trace → BacklogFrom all t := by
  induction rest with
  | nil => intro s _ _ _ t h; simp [ProxyServer.refreshes] at h
  | cons env rest ih =>
    intro s hsub hmono hJ t h
    simp only [List.map_cons, List.pairwise_cons] at hmono
    obtain ⟨hfirst, hmono⟩ := hmono
    have hsub2 : ∀ e ∈ rest, e ∈ all := fun e he => hsub e (List.mem_cons_of_mem _ he)
    simp only [ProxyServer.refreshes, List.mem_append] at h
    rcases fetchBlockTemplate_cases s env with ⟨hsame, hno⟩ | ⟨reply, pr, hw, _, hnt, hst⟩
    · rcases h with h | h
      · exact absurd h (hno t)
      · refine ih _ hsub2 hmono ?_ t h
        intro t0 ht0
        rw [hsame] at ht0
        obtain ⟨hg, hle⟩ := hJ t0 ht0
        exact ⟨hg, fun e he => hle e (List.mem_cons_of_mem _ he)⟩
    · have hkey : env.announcedKey = some reply.Msg := by
        simp [RefreshEnv.announcedKey, hw]
      have hgood := newTemplate_backlogFrom all s.Difficulty s.blockTemplate pr
        env.info.difficulty reply env (hsub env (by simp)) hkey
        (fun t0 ht0 => ⟨(hJ t0 ht0).1, (hJ t0 ht0).2 env (by simp)⟩)
      rcases h with h | h
      · rw [(hst t).mp h]
        exact hgood
      · refine ih _ hsub2 hmono ?_ t h
        intro t0 ht0
        rw [hnt] at ht0
        cases ht0
        refine ⟨hgood, ?_⟩
        intro e he
        exact hfirst _ (List.mem_map.mpr ⟨e, he, rfl⟩)

theorem length_le_three_filters {α : Type} (l : List α) (P0 P1 P2 : α → Bool)
    (h : ∀ x ∈ l, P0 x = true ∨ P1 x = true ∨ P2 x = true) :
    l.length ≤ (l.filter P0).length + (l.filter P1).length + (l.filter P2).length := by
  induction l with
  | nil => simp
  | cons x l ih =>
    have hrest := ih (fun y hy => h y (List.mem_cons_of_mem _ hy))
    have hx := h x (by simp)
    cases h0 : P0 x <;> cases h1 : P1 x <;> cases h2 : P2 x <;>
      simp [List.filter_cons, h0, h1, h2] at hx ⊢ <;> omega

theorem class_length_le (all : List RefreshEnv) (t : BlockTemplate) (m j : Nat)
    (hg : BacklogFrom all t)
    (hm : ∀ e ∈ all, (announcedAt all e.info.headersHeight).length ≤ m) :
    (t.headers.filter (fun p => p.2.height + j == t.Height)).length ≤ m := by
  obtain ⟨hnd, hall⟩ := hg
  cases hc : t.headers.filter (fun p => p.2.height + j == t.Height) with
  | nil => simp
  | cons p0 rest =>
    rw [← hc]
    have hp0 : p0 ∈ t.headers.filter (fun p => p.2.height + j == t.Height) := by
      rw [hc]; simp
    obtain ⟨hp0in, hp0h⟩ := List.mem_filter.mp hp0
    simp only [beq_iff_eq] at hp0h
    obtain ⟨_, _, e0, he0, _, he0h⟩ := hall p0 hp0in
    have hbound := hm e0 he0
    rw [he0h] at hbound
    have hkeys : ((t.headers.filter (fun p => p.2.height + j == t.Height)).map Prod.fst).Nodup :=
      hnd.sublist ((List.filter_sublist t.headers).map Prod.fst)
    have hsub : (t.headers.filter (fun p => p.2.height + j == t.Height)).map Prod.fst
        ⊆ announcedAt all p0.2.height := by
      intro k hk
      obtain ⟨q, hq, hqk⟩ := List.mem_map.mp hk
      obtain ⟨hqin, hqh⟩ := List.mem_filter.mp hq
      simp only [beq_iff_eq] at hqh
      obtain ⟨_, _, e, he, hek, heh⟩ := hall q hqin
      have hsame : e.info.headersHeight = p0.2.height := by omega
      simp only [announcedAt, List.mem_dedup, List.mem_filterMap]
      exact ⟨e, he, by simp [hsame, hek, hqk]⟩
    have := (List.subperm_of_subset hkeys hsub).length_le
    simp only [List.length_map] at this
    omega

theorem backlogFrom_length_le (all : List RefreshEnv) (t : BlockTemplate) (m : Nat)
    (hg : BacklogFrom all t)
    (hm : ∀ e ∈ all, (announcedAt all e.info.headersHeight).length ≤ m) :
    t.headers.length ≤ maxBacklog * m := by
  have h0 := class_length_le all t m 0 hg hm
  have h1 := class_length_le all t m 1 hg hm
  have h2 := class_length_le all t m 2 hg hm
  have hcover := length_le_three_filters t.headers
    (fun p => p.2.height + 0 == t.Height) (fun p => p.2.height + 1 == t.Height)
    (fun p => p.2.height + 2 == t.Height) (by
      intro p hp
      obtain ⟨hle, hwin, _⟩ := hg.2 p hp
      simp only [beq_iff_eq, maxBacklog] at hwin ⊢
      omega)
  simp only [maxBacklog]
  omega


/-- C8 (amended). Starting from no snapshot, when the chain heights the node reports
never decrease and it announces at most `m` distinct header keys at any one height,
the backlog of every published snapshot has at most `maxBacklog * m` entries, a
constant; in any case it has at most as many entries as refreshes were made. -/
theorem published_backlog_bounded_by_keys_per_height (s : ProxyServer)
    (h0 : s.blockTemplate = none) (envs : List RefreshEnv) (m : Nat)
    (hmono : (envs.map (fun e => e.info.headersHeight)).Pairwise (fun x y => x ≤ y))
    (hm : ∀ e ∈ envs, (announcedAt envs e.info.headersHeight).length ≤ m)
    (t : BlockTemplate) (hpub : Effect.store t ∈ (s.refreshes envs).trace) :
    t.headers.length ≤ maxBacklog * m ∧ t.headers.length ≤ envs.length := by
  constructor
  · have hg := refreshes_backlogFrom envs envs s (fun e he => he) hmono
      (by intro t0 ht0; rw [h0] at ht0; cases ht0) t hpub
    exact backlogFrom_length_le envs t m hg hm
  · have := refreshes_length_bound envs s 0 (by intro t0 ht0; rw [h0] at ht0; cases ht0) t hpub
    omega

/-- C8 (amended), at four refreshes with the heights 100 to 103 and one header key
each: the last snapshot holds three entries. -/
theorem published_backlog_bounded_by_keys_per_height_witness :
    server0.blockTemplate = none ∧
    (risingEnvs.map (fun e => e.info.headersHeight)).Pairwise (fun x y => x ≤ y) ∧
    (∀ e ∈ risingEnvs, (announcedAt risingEnvs e.info.headersHeight).length ≤ 1) ∧
    Effect.store template103 ∈ (server0.refreshes risingEnvs).trace ∧
    (template103.headers.length ≤ maxBacklog * 1 ∧
      template103.headers.length ≤ risingEnvs.length) :=
  ⟨rfl, by decide, by decide, by decide,
    published_backlog_bounded_by_keys_per_height server0 rfl risingEnvs 1 (by decide)
      (by decide) template103 (by decide)⟩

/-- The eviction scenario of the specification: after refreshes at the heights 100,
101, 102, 103, each with its own header, the entry of height 100 is gone from the
backlog and the entry of height 101 is still there. -/
theorem backlog_eviction_scenario :
    (server0.refreshes risingEnvs).result = some () ∧
    (server0.refreshes risingEnvs).server.currentBlockTemplate = some template103 ∧
    mapGet template103.headers (keyAt 0) = none ∧
    mapGet template103.headers (keyAt 1) = some { diff := some 7, height := 101 } ∧
    template103.headers.length = 3 := by
  decide


theorem descInv_step (N i : Nat) (hN : N + 3 < 18446744073709551616) (hi : i < N)
    (s : ProxyServer) (h : DescInv N i s) :
    (s.fetchBlockTemplate (descendingEnv N i)).result = some () ∧
    DescInv N (i + 1) (s.fetchBlockTemplate (descendingEnv N i)).server ∧
    ∃ t, Effect.store t ∈ (s.fetchBlockTemplate (descendingEnv N i)).trace ∧
      t.headers.length = i + 1 := by
  obtain ⟨⟨r, hr⟩, hb⟩ := h
  have hne : ∀ t, s.blockTemplate = some t → t.Header ≠ keyAt i := by
    intro t ht
    rw [ht] at hb
    obtain ⟨_, _, _, j, hj, hh⟩ := hb
    rw [hh]
    exact keyAt_ne (by omega)
  have hpub := fetchBlockTemplate_publishes s (descendingEnv N i) r
    { Msg := keyAt i, Target := some 7, PK := "pk" }
    { Msg := keyAt i, Target := some 7, PK := "pk" } 7 hr rfl rfl rfl hne
  have hH : (descendingEnv N i).info.headersHeight = N + 3 - i := by
    simp only [descendingEnv, InfoReply.headersHeight]
    exact Nat.mod_eq_of_lt (by omega)
  have hsz : ¬ (keyAt i).utf8ByteSize < 10 := by rw [keyAt_utf8ByteSize]; omega
  rw [hpub]
  simp only [hsz, if_false, hH, true_and]
  generalize hnt : newTemplate s.Difficulty s.blockTemplate
      { Number := N + 3 - i, Target := (bigUint64 7 : Nat) } (N + 3 - i)
      (descendingEnv N i).info.difficulty
      { Msg := keyAt i, Target := some 7, PK := "pk" } = nt
  have hheader : nt.Header = keyAt i := by rw [← hnt]; rfl
  have hheaders : nt.headers
      = (match s.blockTemplate with
          | none => []
          | some t => t.headers.reverse)
        ++ [(keyAt i, { diff := some 7, height := N + 3 - i })] := by
    rw [← hnt]
    cases hs : s.blockTemplate with
    | none => simp [newTemplate, mapSet]
    | some t =>
      rw [hs] at hb
      obtain ⟨_, hnd, hall, _⟩ := hb
      simp only [newTemplate, mapSet, List.filter_nil]
      apply copyBacklog_fresh
      · intro p hp
        obtain ⟨j, hj, _, hh⟩ := hall p hp
        rw [hh]
        unfold wrapUint64 maxBacklog
        omega
      · exact hnd
      · intro p hp q hq
        simp only [List.mem_singleton] at hq
        subst hq
        obtain ⟨j, hj, hk, _⟩ := hall p hp
        rw [hk]
        exact keyAt_ne (by omega)
  have hinv : match some nt with
      | none => i + 1 = 0
      | some t =>
        t.headers.length = i + 1 ∧ (t.headers.map Prod.fst).Nodup ∧
        (∀ p ∈ t.headers, ∃ j, j < i + 1 ∧ p.1 = keyAt j ∧ p.2.height = N + 3 - j) ∧
        ∃ j, j < i + 1 ∧ t.Header = keyAt j := by
    simp only [hheaders]
    cases hs : s.blockTemplate with
    | none =>
      rw [hs] at hb
      subst hb
      exact ⟨by simp, by simp, by
        intro p hp
        simp only [List.nil_append, List.mem_singleton] at hp
        subst hp
        exact ⟨0, by omega, rfl, rfl⟩, 0, by omega, hheader⟩
    | some t =>
      rw [hs] at hb
      obtain ⟨hlen, hnd, hall, _⟩ := hb
      refine ⟨by simp [hlen], ?_, ?_, i, by omega, hheader⟩
      · simp only [List.map_append, List.map_reverse, List.map_cons, List.map_nil]
        rw [List.nodup_append]
        refine ⟨List.nodup_reverse.mpr hnd, by simp, ?_⟩
        intro a ha hb2
        simp only [List.mem_singleton] at hb2
        subst hb2
        simp only [List.mem_reverse, List.mem_map] at ha
        obtain ⟨p, hp, hpk⟩ := ha
        obtain ⟨j, hj, hk, _⟩ := hall p hp
        rw [hk] at hpk
        exact keyAt_ne (show j ≠ i by omega) hpk
      · intro p hp
        simp only [List.mem_append, List.mem_reverse, List.mem_singleton] at hp
        rcases hp with hp | rfl
        · obtain ⟨j, hj, hk, hh⟩ := hall p hp
          exact ⟨j, by omega, hk, hh⟩
        · exact ⟨i, by omega, rfl, rfl⟩
  refine ⟨⟨⟨_, rpc_setRpc s r _ hr⟩, hinv⟩, nt, by simp, ?_⟩
  exact hinv.1

theorem descInv_refreshes (N : Nat) (hN : N + 3 < 18446744073709551616) (n : Nat) :
    ∀ (i : Nat) (s : ProxyServer), i + n ≤ N → DescInv N i s →
      (s.refreshes (descendingEnvs N i n)).result = some () ∧
      DescInv N (i + n) (s.refreshes (descendingEnvs N i n)).server ∧
      (0 < n → ∃ t, Effect.store t ∈ (s.refreshes (descendingEnvs N i n)).trace ∧
        t.headers.length = i + n) := by
  induction n with
  | zero => intro i s _ h; exact ⟨rfl, h, fun h0 => absurd h0 (by omega)⟩
  | succ n ih =>
    intro i s hle h
    obtain ⟨hres, hinv, t, ht, hlen⟩ := descInv_step N i hN (by omega) s h
    obtain ⟨hres2, hinv2, hex⟩ := ih (i + 1) _ (by omega) hinv
    have e : i + 1 + n = i + (n + 1) := by omega
    rw [e] at hinv2 hex
    refine ⟨?_, hinv2, ?_⟩
    · simp only [descendingEnvs, ProxyServer.refreshes, hres, hres2]
    · intro _
      rcases Nat.eq_zero_or_pos n with rfl | hn
      · exact ⟨t, by simp [descendingEnvs, ProxyServer.refreshes, ht], hlen⟩
      · obtain ⟨t2, ht2, hlen2⟩ := hex hn
        exact ⟨t2, by simp [descendingEnvs, ProxyServer.refreshes, ht2], hlen2⟩

theorem mem_descendingEnvs (N n : Nat) :
    ∀ (i : Nat) (e : RefreshEnv), e ∈ descendingEnvs N i n →
      ∃ j, i ≤ j ∧ j < i + n ∧ e = descendingEnv N j := by
  induction n with
  | zero => intro i e h; simp [descendingEnvs] at h
  | succ n ih =>
    intro i e h
    simp only [descendingEnvs, List.mem_cons] at h
    rcases h with rfl | h
    · exact ⟨i, Nat.le_refl _, by omega, rfl⟩
    · obtain ⟨j, h1, h2, h3⟩ := ih (i + 1) e h
      exact ⟨j, by omega, by omega, h3⟩

theorem length_le_one_of_all_eq {α : Type} (l : List α) (hnd : l.Nodup)
    (h : ∀ x ∈ l, ∀ y ∈ l, x = y) : l.length ≤ 1 := by
  match l, hnd, h with
  | [], _, _ => simp
  | [_], _, _ => simp
  | a :: b :: _, hnd, h =>
    have hab : a = b := h a (by simp) b (by simp)
    simp [hab] at hnd

theorem descendingEnvs_one_key_per_height (N : Nat) (hN : N + 3 < 18446744073709551616)
    (h : Nat) : (announcedAt (descendingEnvs N 0 N) h).length ≤ 1 := by
  apply length_le_one_of_all_eq _ (List.nodup_dedup _)
  have key : ∀ x ∈ announcedAt (descendingEnvs N 0 N) h,
      ∃ j, j < N ∧ N + 3 - j = h ∧ x = keyAt j := by
    intro x hx
    simp only [announcedAt, List.mem_dedup, List.mem_filterMap] at hx
    obtain ⟨e, he, hk⟩ := hx
    obtain ⟨j, _, hj, rfl⟩ := mem_descendingEnvs N N 0 e he
    have hH : (descendingEnv N j).info.headersHeight = N + 3 - j := by
      simp only [descendingEnv, InfoReply.headersHeight]
      exact Nat.mod_eq_of_lt (by omega)
    rw [hH] at hk
    by_cases hh : N + 3 - j = h
    · simp only [hh, if_true, descendingEnv, RefreshEnv.announcedKey, Option.some.injEq] at hk
      exact ⟨j, by omega, hh, hk.symm⟩
    · simp [hh] at hk
  intro x hx y hy
  obtain ⟨j, hj, hjh, rfl⟩ := key x hx
  obtain ⟨k, hk, hkh, rfl⟩ := key y hy
  have : j = k := by omega
  rw [this]

/-- Without the assumption that the reported chain heights never decrease, one
header key per height does not bound the backlog by a constant of `maxBacklog`:
`N` refreshes announcing one header each at the falling heights `N + 3, ..., 4` all
return normally and publish a snapshot with `N` backlog entries. -/
theorem backlog_grows_with_descending_heights (N : Nat) (hN : N + 3 < 18446744073709551616)
    (hpos : 0 < N) :
    (∀ e ∈ descendingEnvs N 0 N,
      (announcedAt (descendingEnvs N 0 N) e.info.headersHeight).length ≤ 1) ∧
    (server0.refreshes (descendingEnvs N 0 N)).result = some () ∧
    ∃ t, Effect.store t ∈ (server0.refreshes (descendingEnvs N 0 N)).trace ∧
      t.headers.length = N := by
  have h0 : DescInv N 0 server0 := ⟨⟨nodeA, rfl⟩, rfl⟩
  obtain ⟨hres, _, hex⟩ := descInv_refreshes N hN N 0 server0 (by omega) h0
  obtain ⟨t, ht, hlen⟩ := hex hpos
  exact ⟨fun e _ => descendingEnvs_one_key_per_height N hN _, hres, t, ht, by omega⟩


/-! ## theorems: stale submissions (C5, C13) -/

/-- On a snapshot published by a sequence of refreshes `processShare` never takes its
stale branch: the key it looks up is the snapshot's own `Header`, which the backlog
holds. Whatever solution is submitted and whatever the replies, the call does not
return `(false, false)`, and with an active node in range its first act is the
`SubmitSolution` call. -/
theorem processShare_never_stale (s0 : ProxyServer) (envs : List RefreshEnv)
    (t : BlockTemplate) (hpub : Effect.store t ∈ (s0.refreshes envs).trace)
    (s : ProxyServer) (login id ip : String) (params : SolutionReq) (env : ShareEnv) :
    ((s.processShare login id ip (some t) params env).result = none ∨
      (s.processShare login id ip (some t) params env).result = some (false, true)) ∧
    (∀ r, s.rpc = some r →
      (s.processShare login id ip (some t) params env).trace.head?
        = some (Effect.submitSolution params)) := by
  obtain ⟨h, hget⟩ := published_backlog_has_own_key s0 envs t hpub
  unfold ProxyServer.processShare
  simp only [hget]
  cases hr : s.rpc with
  | none => simp
  | some r =>
    simp only
    by_cases herr : (r.SubmitSolution env.post).2.2 = true
    · simp [herr]
    · by_cases hok : (r.SubmitSolution env.post).2.1 = true
      · simp only [herr, hok, Bool.not_true, if_false, Bool.false_eq_true]
        split
        · simp
        · split <;> simp
      · simp [herr, hok]

/-- On a published current snapshot `handleSubmitRPC` never reports a submission with
non-nil params as invalid: whenever it returns, it returns validity true, and its one
call besides those of `processShare` is `ApplySharePolicy` with `true`. -/
theorem handleSubmitRPC_never_invalid (s0 : ProxyServer) (envs : List RefreshEnv)
    (t : BlockTemplate) (hpub : Effect.store t ∈ (s0.refreshes envs).trace)
    (s : ProxyServer) (hcur : s.currentBlockTemplate = some t) (cs : Session)
    (login id : String) (p : SolutionReq) (env : SubmitEnv) :
    ∀ out, (s.handleSubmitRPC cs login id (some p) env).result = some out →
      out.1 = true ∧
      (s.handleSubmitRPC cs login id (some p) env).trace
        = (s.processShare login (workerId id) cs.ip (some t) p env.share).trace
            ++ [Effect.applySharePolicy cs.ip true] := by
  obtain ⟨hres, _⟩ := processShare_never_stale s0 envs t hpub s login (workerId id) cs.ip p
    env.share
  unfold ProxyServer.handleSubmitRPC
  rw [hcur]
  rcases hres with hres | hres
  · simp only [hres]
    intro out h
    cases h
  · simp only [hres]
    intro out h
    cases hp : env.sharePolicy <;> simp [hp] at h ⊢ <;> simp [← h]

/-- C5 (the code at the failing input). The work `H` was handed out at height 500; the
snapshot current at submission time is `H2` at height 503, whose backlog no longer
holds `H`. A solution found on `H` is submitted (its payload carries no header key)
and the node answers 400. `processShare` looks up the snapshot's own header `H2`,
calls `SubmitSolution`, writes a share for height 503 and returns `(false, true)`:
the submission is not classified stale. -/
theorem stale_solution_forwarded_and_credited :
    (server0.refreshes [envH500, envH503]).result = some () ∧
    Effect.store template500 ∈ (server0.refreshes [envH500, envH503]).trace ∧
    server503.currentBlockTemplate = some template503 ∧
    mapGet template503.headers headerH = none ∧
    (server503.processShare "miner" "rig1" "10.0.0.7" server503.currentBlockTemplate solution
        envRejected).result = some (false, true) ∧
    (server503.processShare "miner" "rig1" "10.0.0.7" server503.currentBlockTemplate solution
        envRejected).trace
      = [Effect.submitSolution solution,
          Effect.writeShare "miner" "rig1" solution 1000 503 10800000000000] := by
  decide

/-- C13 (the code at the failing input). With snapshot `H2` (height 503) current and
`H` gone from its backlog, a solution found on `H` is submitted with non-nil params,
the node answers 400 and the policy lets the submitter continue. `handleSubmitRPC`
passes `true` to `ApplySharePolicy` and returns validity true with a nil error: the
stale submission is reported as a valid share, not as an invalid-share error. -/
theorem stale_solution_reported_valid :
    server503.currentBlockTemplate = some template503 ∧
    mapGet template503.headers headerH = none ∧
    (server503.handleSubmitRPC minerSession "miner" "rig1" (some solution)
        envRejectedPolicyAllows).result = some (true, none) ∧
    (server503.handleSubmitRPC minerSession "miner" "rig1" (some solution)
        envRejectedPolicyAllows).trace
      = [Effect.submitSolution solution,
          Effect.writeShare "miner" "rig1" solution 1000 503 10800000000000,
          Effect.applySharePolicy "10.0.0.7" true] := by
  decide

end ErgoPool
